import Mathlib

/-!
# Fractals viewer (`OpenGL/main_Fractals.cpp`): embedding and verification

The C program keeps its whole state in file-scope globals.  They are gathered
here in one record, `Globals`, and every C function becomes a function on that
record.  `double` values are modelled by exact rationals (`ℚ`): all statements
below are statements of exact arithmetic, rounding is outside the model.
`int` values are unbounded integers; signed overflow (undefined in C) is
outside the model.

The OpenGL calls are modelled by their effect: `glVertex2d` appends a vertex to
the list returned by `draw_level`, and the model-view matrix, which the program
only ever translates and scales uniformly, is kept as a scale and an offset.
-/

namespace Fractals

/-! ## Data model -/

/-- The C struct `AffineTrans`: matrix, constant vector and stationary point. -/
structure AffineTrans where
  a00 : ℚ
  a01 : ℚ
  a10 : ℚ
  a11 : ℚ
  b0 : ℚ
  b1 : ℚ
  statx : ℚ
  staty : ℚ
  deriving DecidableEq

/-- The model-view matrix.  Every matrix the program builds is a product of
translations and uniform scalings, that is a map `p ↦ s * p + (tx, ty, tz)`. -/
structure ModelView where
  s : ℚ
  tx : ℚ
  ty : ℚ
  tz : ℚ
  deriving DecidableEq

/-- The call `glLoadIdentity()`. -/
def glLoadIdentity : ModelView := ⟨1, 0, 0, 0⟩

/-- The call `glTranslated(x, y, z)`: the current matrix is multiplied on the right
by the translation. -/
def glTranslated (x y z : ℚ) (m : ModelView) : ModelView :=
  { m with tx := m.tx + m.s * x, ty := m.ty + m.s * y, tz := m.tz + m.s * z }

/-- The call `glScaled(k, k, k)`: the current matrix is multiplied on the right by
the uniform scaling. -/
def glScaled (k : ℚ) (m : ModelView) : ModelView :=
  { m with s := m.s * k }

/-- The file-scope variables of the program, with the part of the GL/GLUT state
the callbacks touch. -/
structure Globals where
  num_levels : Int
  num_trans : Int
  affine : List AffineTrans
  window_title : List Char
  xwin : ℚ
  ywin : ℚ
  scale_factor : ℚ
  modelview : ModelView
  redisplay_posted : Bool
  left_main_loop : Bool
  deriving DecidableEq

/-- A vertex passed to `glVertex2d`. -/
abbrev Vertex := ℚ × ℚ

/-- A line segment drawn by the rendering surface. -/
abbrev Segment := Vertex × Vertex

/-- How a run of the model can fail to produce a result: an array is read or
written outside its bounds, the bound on nested calls is used up, a quotient
with divisor zero is asked for (which exact arithmetic does not define), or the
input has a form whose conversion the model does not describe. -/
inductive Fault where
  | outOfRange
  | outOfFuel
  | divideByZero
  | notModelled
  deriving DecidableEq

/-- Between `glBegin(GL_LINES)` and `glEnd()` each consecutive pair of vertices is
one segment. -/
def glLines : List Vertex → List Segment
  | a :: b :: rest => (a, b) :: glLines rest
  | _ => []

/-! ## `draw_level` -/

/-- The loop `for (i = 1; i < num_trans; i++)` of `draw_level`, lines 44-54, run over
the remaining values of `i`; `x0`, `y0` are the loop-carried variables. -/
def leafLoop (affine : List AffineTrans) (m00 m01 m10 m11 n0 n1 : ℚ) :
    List Nat → ℚ → ℚ → Except Fault (List Vertex)
  | [], _, _ => .ok []
  | i :: rest, x0, y0 =>
    match affine[i]? with
    | none => .error .outOfRange
    | some t =>
      let x1 := m00 * t.statx + m01 * t.staty + n0
      let y1 := m10 * t.statx + m11 * t.staty + n1
      match leafLoop affine m00 m01 m10 m11 n0 n1 rest x1 y1 with
      | .error e => .error e
      | .ok vs => .ok ((x0, y0) :: (x1, y1) :: vs)

/-- Runs `body` for each index in turn and concatenates the vertices emitted; the
first fault stops the run. -/
def forEach (body : Nat → Except Fault (List Vertex)) :
    List Nat → Except Fault (List Vertex)
  | [] => .ok []
  | i :: rest =>
    match body i with
    | .error e => .error e
    | .ok vs =>
      match forEach body rest with
      | .error e => .error e
      | .ok ws => .ok (vs ++ ws)

/-- The function `draw_level`, lines 31-71.  The result is the sequence of
`glVertex2d` calls.  `num` is a C `int`, so the recursion on `num-1` need not
terminate: the first argument bounds the nesting of calls, and running out of it
is reported as `Fault.outOfFuel`.  Reading `affine[i]` outside the allocated array
is reported as `Fault.outOfRange`. -/
def draw_level (g : Globals) :
    Nat → Int → ℚ → ℚ → ℚ → ℚ → ℚ → ℚ → Except Fault (List Vertex)
  | 0, _, _, _, _, _, _, _ => .error .outOfFuel
  | fuel + 1, num, m00, m01, m10, m11, n0, n1 =>
    if num = 0 then
      match g.affine[0]? with
      | none => .error .outOfRange
      | some t =>
        let x0 := m00 * t.statx + m01 * t.staty + n0
        let y0 := m10 * t.statx + m11 * t.staty + n1
        leafLoop g.affine m00 m01 m10 m11 n0 n1
          (List.range' 1 (g.num_trans.toNat - 1)) x0 y0
    else
      forEach (fun i =>
        match g.affine[i]? with
        | none => .error .outOfRange
        | some t =>
          draw_level g fuel (num - 1)
            (m00 * t.a00 + m01 * t.a10)
            (m00 * t.a01 + m01 * t.a11)
            (m10 * t.a00 + m11 * t.a10)
            (m10 * t.a01 + m11 * t.a11)
            (m00 * t.b0 + m01 * t.b1 + n0)
            (m10 * t.b0 + m11 * t.b1 + n1))
        (List.range g.num_trans.toNat)

/-- The function `Display`, lines 73-88: the segments drawn between `glBegin(GL_LINES)`
and `glEnd()`. -/
def Display (g : Globals) (fuel : Nat) : Except Fault (List Segment) :=
  match draw_level g fuel g.num_levels 1 0 0 1 0 0 with
  | .error e => .error e
  | .ok vs => .ok (glLines vs)

/-! ## The keyboard callbacks and `Reshape` -/

/-- The function `Reshape`, lines 90-106.  The viewport and the projection matrix are
not part of the model. -/
def Reshape (g : Globals) : Globals :=
  let g := { g with modelview := glLoadIdentity }
  let g := { g with xwin := -1.0 }
  let g := { g with ywin := 0.0 }
  { g with modelview := glTranslated g.xwin g.ywin (-5.0) g.modelview }

/-- The call `glutPostRedisplay()` guarded by `if (need_redisplay)`. -/
def postRedisplay (need_redisplay : Bool) (g : Globals) : Globals :=
  if need_redisplay then { g with redisplay_posted := true } else g

/-- The function `Key`, lines 108-140; `key` is the `unsigned char` received. -/
def Key (key : Char) (g : Globals) : Globals :=
  if key = Char.ofNat 27 then
    postRedisplay true { g with left_main_loop := true }
  else if key = '+' then
    postRedisplay true { g with num_levels := g.num_levels + 1 }
  else if key = '-' then
    postRedisplay true
      (if g.num_levels > 0 then { g with num_levels := g.num_levels - 1 } else g)
  else if key = 'r' ∨ key = 'R' then
    let g := { g with modelview := glLoadIdentity }
    let g := { g with xwin := -1.0 }
    let g := { g with ywin := 0.0 }
    postRedisplay true { g with modelview := glTranslated g.xwin g.ywin (-5.0) g.modelview }
  else
    postRedisplay false g

/-- The key code `GLUT_KEY_LEFT` of `GL/glut.h`. -/
def GLUT_KEY_LEFT : Int := 100
/-- The key code `GLUT_KEY_UP` of `GL/glut.h`. -/
def GLUT_KEY_UP : Int := 101
/-- The key code `GLUT_KEY_RIGHT` of `GL/glut.h`. -/
def GLUT_KEY_RIGHT : Int := 102
/-- The key code `GLUT_KEY_DOWN` of `GL/glut.h`. -/
def GLUT_KEY_DOWN : Int := 103
/-- The key code `GLUT_KEY_PAGE_UP` of `GL/glut.h`. -/
def GLUT_KEY_PAGE_UP : Int := 104
/-- The key code `GLUT_KEY_PAGE_DOWN` of `GL/glut.h`. -/
def GLUT_KEY_PAGE_DOWN : Int := 105

/-- The function `Special`, lines 142-193. -/
def Special (key : Int) (g : Globals) : Globals :=
  if key = GLUT_KEY_UP then
    let g := { g with ywin := g.ywin + 0.1 * g.scale_factor }
    postRedisplay true
      { g with modelview := glTranslated 0.0 (0.1 * g.scale_factor) 0.0 g.modelview }
  else if key = GLUT_KEY_DOWN then
    let g := { g with ywin := g.ywin - 0.1 * g.scale_factor }
    postRedisplay true
      { g with modelview := glTranslated 0.0 (-0.1 * g.scale_factor) 0.0 g.modelview }
  else if key = GLUT_KEY_LEFT then
    let g := { g with xwin := g.xwin - 0.1 * g.scale_factor }
    postRedisplay true
      { g with modelview := glTranslated (-0.1 * g.scale_factor) 0.0 0.0 g.modelview }
  else if key = GLUT_KEY_RIGHT then
    let g := { g with xwin := g.xwin + 0.1 * g.scale_factor }
    postRedisplay true
      { g with modelview := glTranslated (0.1 * g.scale_factor) 0.0 0.0 g.modelview }
  else if key = GLUT_KEY_PAGE_UP then
    let g := { g with modelview := glTranslated (-g.xwin) (-g.ywin) 0.0 g.modelview }
    let g := { g with modelview := glScaled 1.25 g.modelview }
    let g := { g with modelview := glTranslated g.xwin g.ywin 0.0 g.modelview }
    postRedisplay true { g with scale_factor := g.scale_factor * 0.8 }
  else if key = GLUT_KEY_PAGE_DOWN then
    let g := { g with modelview := glTranslated (-g.xwin) (-g.ywin) 0.0 g.modelview }
    let g := { g with modelview := glScaled 0.8 g.modelview }
    let g := { g with modelview := glTranslated g.xwin g.ywin 0.0 g.modelview }
    postRedisplay true { g with scale_factor := g.scale_factor * 1.25 }
  else
    postRedisplay false g

/-- An event delivered by the GLUT main loop. -/
inductive Event where
  | key (c : Char)
  | special (k : Int)
  | reshape (width height : Int)

/-- The callback registered for an event (lines 304-306). -/
def handle (e : Event) (g : Globals) : Globals :=
  match e with
  | .key c => Key c g
  | .special k => Special k g
  | .reshape _ _ => Reshape g

/-- The globals after a sequence of events has been handled, first event first. -/
def run (es : List Event) (g : Globals) : Globals :=
  es.foldl (fun g e => handle e g) g

/-! ## `readConfigFile`

The C library calls are modelled by what the C standard says they do on the
inputs the loader gives them.  A conversion of `sscanf` has three outcomes here:
a value is converted, the input does not match, or the input is of a form the
model does not describe, which is reported as `Fault.notModelled` and never given a
value.  The forms not described are: for `%d`, a number that does not fit an `int`
(undefined in C); for `%lf`, the hexadecimal, infinity and NaN forms, an exponent
letter that no digit follows (C libraries differ on it), and a decimal number
outside the range of the normal doubles.  The allocation by `malloc` is taken to
succeed. -/

/-- The macro `WIN_TITLE_LENGTH`. -/
def WIN_TITLE_LENGTH : Nat := 80

/-- What `readConfigFile` finds around it: the contents of the file named, `none`
when `fopen` returns a null pointer, and the indeterminate contents of storage it
does not initialise: the local array `inputline` and the block `malloc` returns
(`malloc` is taken to return one: a null result is outside the model). -/
structure Surroundings where
  file : Option (List Char)
  inputline : List Char
  heap : Nat → AffineTrans

/-- The characters one `fgets` call with room for `n` of them takes from the stream,
and the rest of the stream: it stops after a newline. -/
def fgetsChars : Nat → List Char → List Char × List Char
  | 0, s => ([], s)
  | _ + 1, [] => ([], [])
  | n + 1, c :: s =>
    if c = Char.ofNat 10 then ([c], s)
    else ((c :: (fgetsChars n s).1), (fgetsChars n s).2)

/-- The buffer `inputline` and the unread part of the file. -/
structure Reader where
  inputline : List Char
  stream : List Char
  deriving DecidableEq

/-- The call `fgets(inputline, size, fptr)`.  At end of file nothing is read and the
buffer keeps its contents (the null result is not looked at by the program). -/
def fgets (size : Nat) (r : Reader) : Reader :=
  match r.stream with
  | [] => r
  | _ :: _ => ⟨(fgetsChars (size - 1) r.stream).1, (fgetsChars (size - 1) r.stream).2⟩

/-- The characters of the scan set of the title format,
`%[a-zA-Z0-9!@#$%^&*()+=/\\_-\" ]`. -/
def inTitleSet (c : Char) : Bool :=
  c.isAlpha || c.isDigit || "!@#$%^&*()+=/\\_-\" ".toList.contains c

/-- The conversion `%[...]` of the title line: the longest run of scan-set characters
at the start of the line, which must not be empty. -/
def scanTitle (line : List Char) : Option (List Char) :=
  match line.takeWhile inTitleSet with
  | [] => none
  | t => some t

/-- White space as `isspace` sees it. -/
def isSpace (c : Char) : Bool :=
  c = ' ' || (9 ≤ c.toNat && c.toNat ≤ 13)

/-- The value of a run of decimal digits. -/
def digitsValue (ds : List Char) : Nat :=
  ds.foldl (fun acc c => 10 * acc + (c.toNat - '0'.toNat)) 0

/-- An optional sign at the head of the input: whether it is a minus, and the rest. -/
def scanSign : List Char → Bool × List Char
  | '-' :: s => (true, s)
  | '+' :: s => (false, s)
  | s => (false, s)

/-- The outcome of one conversion of `sscanf`: the value converted and the rest of
the input, no match, or an input of a form the model does not describe. -/
inductive Conversion (α : Type) where
  | converted (v : α) (rest : List Char)
  | noMatch
  | notModelled

/-- The conversion `%d`: white space, an optional sign and at least one decimal
digit.  A value that an `int` of 32 bits cannot hold is not described. -/
def scanInt (line : List Char) : Conversion Int :=
  let s := scanSign (line.dropWhile isSpace)
  match s.2.takeWhile Char.isDigit with
  | [] => .noMatch
  | ds =>
    let v : Int := if s.1 then -(digitsValue ds : Int) else (digitsValue ds : Int)
    if -2147483648 ≤ v ∧ v ≤ 2147483647 then .converted v (s.2.dropWhile Char.isDigit)
    else .notModelled

/-- The assignment `sscanf(inputline, "%d", &num_trans)` makes, line 227: none when
the input does not match. -/
def storeCount (g : Globals) : Conversion Int → Except Fault Globals
  | .converted v _ => .ok { g with num_trans := v }
  | .noMatch => .ok g
  | .notModelled => .error .notModelled

/-- An optional decimal exponent after the digits of a number: its value and the rest
of the input, or `none` for an exponent letter that no digit follows. -/
def scanExponent : List Char → Option (Int × List Char)
  | c :: s =>
    if c = 'e' ∨ c = 'E' then
      match (scanSign s).2.takeWhile Char.isDigit with
      | [] => none
      | ds =>
        let v : Int := digitsValue ds
        some (if (scanSign s).1 then -v else v, (scanSign s).2.dropWhile Char.isDigit)
    else some (0, c :: s)
  | [] => some (0, [])

/-- The magnitude `m * 10^e` of a decimal number, when it is zero or in the range of
the normal doubles, from `2^-1022` up to `2^1023`. -/
def decimalValue (m : ℚ) (e : Int) : Option ℚ :=
  if m = 0 then some 0
  else if e < -400 ∨ 400 < e then none
  else if 1 / 2 ^ 1022 ≤ m * (10 : ℚ) ^ e ∧ m * (10 : ℚ) ^ e < 2 ^ 1023 then
    some (m * (10 : ℚ) ^ e)
  else none

/-- The conversion `%lf` on decimal input: white space, an optional sign, digits with
an optional fraction (at least one digit in all) and an optional exponent.  Input
that starts, after the sign, with `n`, `i` (NaN, infinity) or `0x` (hexadecimal) is
not described. -/
def scanDouble (line : List Char) : Conversion ℚ :=
  let s := scanSign (line.dropWhile isSpace)
  match s.2 with
  | [] => .noMatch
  | c :: cs =>
    if c = 'n' ∨ c = 'N' ∨ c = 'i' ∨ c = 'I' then .notModelled
    else if c = '0' ∧ (cs.head? = some 'x' ∨ cs.head? = some 'X') then .notModelled
    else
      let ip := s.2.takeWhile Char.isDigit
      let r := s.2.dropWhile Char.isDigit
      let fp := match r with
        | '.' :: r1 => r1.takeWhile Char.isDigit
        | _ => []
      let r := match r with
        | '.' :: r1 => if ip = [] ∧ fp = [] then r else r1.dropWhile Char.isDigit
        | _ => r
      if ip = [] ∧ fp = [] then .noMatch
      else
        match scanExponent r with
        | none => .notModelled
        | some e =>
          match decimalValue ((digitsValue (ip ++ fp) : ℚ) / (10 : ℚ) ^ fp.length) e.1 with
          | none => .notModelled
          | some v => .converted (if s.1 then -v else v) e.2

/-- The values `sscanf` converts with a format of `n` conversions `%lf`: it stops at
the first input that does not match. -/
def scanDoubles : Nat → List Char → Except Fault (List ℚ)
  | 0, _ => .ok []
  | n + 1, line =>
    match scanDouble line with
    | .notModelled => .error .notModelled
    | .noMatch => .ok []
    | .converted v rest =>
      match scanDoubles n rest with
      | .error e => .error e
      | .ok vs => .ok (v :: vs)

/-- The assignments `sscanf` makes through the six pointers of lines 240-242: one
for each value converted, in order; the fields not reached keep their contents. -/
def storeCoefficients (t : AffineTrans) : List ℚ → AffineTrans
  | [] => t
  | [a] => { t with a00 := a }
  | [a, b] => { t with a00 := a, a01 := b }
  | [a, b, c] => { t with a00 := a, a01 := b, a10 := c }
  | [a, b, c, d] => { t with a00 := a, a01 := b, a10 := c, a11 := d }
  | [a, b, c, d, e] => { t with a00 := a, a01 := b, a10 := c, a11 := d, b0 := e }
  | a :: b :: c :: d :: e :: f :: _ =>
    { t with a00 := a, a01 := b, a10 := c, a11 := d, b0 := e, b1 := f }

/-- The call `malloc(num_trans * sizeof(AffineTrans))`: a block of `num_trans` records
with indeterminate contents (none when `num_trans` is not positive). -/
def mallocAffine (heap : Nat → AffineTrans) (num_trans : Int) : List AffineTrans :=
  (List.range num_trans.toNat).map heap

/-- The loop of lines 234-244 run over the remaining values of `i`. -/
def readTransLoop : List Nat → Reader → List AffineTrans → Except Fault (List AffineTrans)
  | [], _, affine => .ok affine
  | i :: rest, r, affine =>
    let r := fgets 256 r
    match affine[i]? with
    | none => .error .outOfRange
    | some t =>
      match scanDoubles 6 r.inputline with
      | .error e => .error e
      | .ok vals => readTransLoop rest r (affine.set i (storeCoefficients t vals))

/-- The quotient `x / d` of exact arithmetic, undefined for `d = 0`. -/
def divide (x d : ℚ) : Except Fault ℚ :=
  if d = 0 then .error .divideByZero else .ok (x / d)

/-- The body of the loop of lines 260-283 for one record: the stationary point of the
map is computed and stored.  The operation used for the two quotients is an
argument, so that whether a quotient is taken at all can be told from outside. -/
def stationaryPointWith (quot : ℚ → ℚ → Except Fault ℚ) (t : AffineTrans) :
    Except Fault AffineTrans :=
  let m00 := 1.0 - t.a00
  let m01 := - t.a01
  let m10 := - t.a10
  let m11 := 1.0 - t.a11
  let determ := m00 * m11 - m01 * m10
  if |determ| > 1.0e-6 then
    match quot (m11 * t.b0 - m01 * t.b1) determ with
    | .error e => .error e
    | .ok sx =>
      match quot (-m10 * t.b0 + m00 * t.b1) determ with
      | .error e => .error e
      | .ok sy => .ok { t with statx := sx, staty := sy }
  else
    .ok { t with statx := 0.0, staty := 0.0 }

/-- The body of the loop of lines 260-283 with the quotient of exact arithmetic. -/
def stationaryPoint (t : AffineTrans) : Except Fault AffineTrans :=
  stationaryPointWith divide t

/-- The loop of lines 260-283 run over the remaining values of `i`. -/
def stationaryLoop : List Nat → List AffineTrans → Except Fault (List AffineTrans)
  | [], affine => .ok affine
  | i :: rest, affine =>
    match affine[i]? with
    | none => .error .outOfRange
    | some t =>
      match stationaryPoint t with
      | .error e => .error e
      | .ok t1 => stationaryLoop rest (affine.set i t1)

/-- The branch of `readConfigFile` taken when the file was opened, lines 203-245. -/
def readOpenedFile (contents : List Char) (env : Surroundings) (g : Globals) :
    Except Fault Globals :=
  let r : Reader := ⟨env.inputline, contents⟩
  let r := fgets 256 r
  let r := fgets 256 r
  let r := fgets 256 r
  match (match scanTitle r.inputline with
      | none => Except.ok g
      | some t =>
        if t.length ≤ WIN_TITLE_LENGTH then Except.ok { g with window_title := t }
        else Except.error Fault.outOfRange) with
  | .error e => .error e
  | .ok g =>
    let r := fgets 256 r
    let r := fgets 256 r
    match storeCount g (scanInt r.inputline) with
    | .error e => .error e
    | .ok g =>
      let g := { g with affine := mallocAffine env.heap g.num_trans }
      let r := fgets 256 r
      match readTransLoop (List.range g.num_trans.toNat) r g.affine with
      | .error e => .error e
      | .ok affine => .ok { g with affine := affine }

/-- The branch of `readConfigFile` taken when the file could not be opened,
lines 246-258. -/
def setDefault (env : Surroundings) (g : Globals) : Except Fault Globals :=
  let g := { g with window_title := "Cantor Dust".toList.take WIN_TITLE_LENGTH }
  let g := { g with num_trans := 2 }
  let g := { g with affine := mallocAffine env.heap g.num_trans }
  match g.affine[0]?, g.affine[1]? with
  | some t0, some t1 =>
    let t0 := { t0 with a00 := 0.25, a01 := 0.00, a10 := 0.00, a11 := 0.25,
                        b0 := 0.0, b1 := 0.0 }
    let t1 := { t1 with a00 := 0.25, a01 := 0.00, a10 := 0.00, a11 := 0.25,
                        b0 := 0.5, b1 := 0.0 }
    .ok { g with affine := (g.affine.set 0 t0).set 1 t1 }
  | _, _ => .error .outOfRange

/-- The function `readConfigFile`, lines 196-284. -/
def readConfigFile (env : Surroundings) (g : Globals) : Except Fault Globals :=
  match (match env.file with
      | some contents => readOpenedFile contents env g
      | none => setDefault env g) with
  | .error e => .error e
  | .ok g =>
    match stationaryLoop (List.range g.num_trans.toNat) g.affine with
    | .error e => .error e
    | .ok affine => .ok { g with affine := affine }

/-- The values the file-scope variables have when `main` starts: the initialisers of
lines 17, 28 and 29, zero for the others. -/
def initialGlobals : Globals :=
  { num_levels := 0, num_trans := 0, affine := [], window_title := [],
    xwin := 0.0, ywin := 0.0, scale_factor := 1.0,
    modelview := glLoadIdentity, redisplay_posted := false, left_main_loop := false }

/-! ## Definitions used to state the results -/

/-- The buffer and stream after `n` calls of `fgets(inputline, 256, fptr)`. -/
def readerAfter : Nat → Reader → Reader
  | 0, r => r
  | n + 1, r => readerAfter n (fgets 256 r)

/-- The globals once `readConfigFile` has run at startup without finding the file. -/
def cantorDust : Globals :=
  { initialGlobals with
    window_title := "Cantor Dust".toList
    num_trans := 2
    affine := [⟨0.25, 0.00, 0.00, 0.25, 0.0, 0.0, 0, 0⟩,
               ⟨0.25, 0.00, 0.00, 0.25, 0.5, 0.0, 2 / 3, 0⟩] }

/-- What the comment of line 27 says of `xwin`, `ywin` and `scale_factor`, "the amount
the view is translated and scaled": the model-view matrix is the translation by
`(xwin, ywin, 0)`, then the scaling by `1 / scale_factor`, then the translation by -5
along z. -/
def viewTracked (g : Globals) : Prop :=
  g.modelview.s * g.scale_factor = 1 ∧
  g.modelview.tx = g.modelview.s * g.xwin ∧
  g.modelview.ty = g.modelview.s * g.ywin ∧
  g.modelview.tz = -5

/-- The relation `viewTracked` can be decided by evaluation. -/
instance (g : Globals) : Decidable (viewTracked g) := by
  unfold viewTracked
  infer_instance

/-- A configuration file whose map-count line is `abc`. -/
def badCountFile : List Char :=
  "Fractal definition\n# title\nKoch Curve\n# number of maps\nabc\n# maps\n0.5 0 0 0.5 0 0\n".toList

/-- The file `badCountFile` opened, with zeroes in the storage not yet written. -/
def badCountEnv : Surroundings := ⟨some badCountFile, [], fun _ => ⟨0, 0, 0, 0, 0, 0, 0, 0⟩⟩

/-- A configuration file that declares two maps and has one map line, with two
numbers on it. -/
def shortLineFile : List Char :=
  "Fractal definition\n# title\nKoch Curve\n# number of maps\n2\n# maps\n1 2\n".toList

/-- The file `shortLineFile` opened, with 9 in every field of the block allocated. -/
def shortLineEnv : Surroundings := ⟨some shortLineFile, [], fun _ => ⟨9, 9, 9, 9, 9, 9, 9, 9⟩⟩

/-! ### The generator and the solver as the specification words them -/

/-- The specification's `generate`, section 4.2: at depth 0 the segments joining
each transformed fixed point to the next, at depth `d+1` the segments of depth `d`
under the composite transform pre-composed with each map in turn. -/
def generate (affine : List AffineTrans) :
    Nat → ℚ → ℚ → ℚ → ℚ → ℚ → ℚ → List Segment
  | 0, m00, m01, m10, m11, n0, n1 =>
    let pts : List Vertex := affine.map (fun t =>
      (m00 * t.statx + m01 * t.staty + n0, m10 * t.statx + m11 * t.staty + n1))
    List.zip pts pts.tail
  | d + 1, m00, m01, m10, m11, n0, n1 =>
    (affine.map (fun t => generate affine d
      (m00 * t.a00 + m01 * t.a10) (m00 * t.a01 + m01 * t.a11)
      (m10 * t.a00 + m11 * t.a10) (m10 * t.a01 + m11 * t.a11)
      (m00 * t.b0 + m01 * t.b1 + n0) (m10 * t.b0 + m11 * t.b1 + n1))).flatten

/-- The `glVertex2d` calls that draw a list of segments: both ends of each. -/
def vertexCalls : List Segment → List Vertex
  | [] => []
  | s :: rest => s.1 :: s.2 :: vertexCalls rest

/-- The vertices emitted by a polyline that starts at `p` and visits `qs`. -/
def chainVerts : Vertex → List Vertex → List Vertex
  | _, [] => []
  | p, q :: qs => p :: q :: chainVerts q qs

/-- The record the solver stores, as section 4.1 of the specification words it: with
`M = I - a` and `det = M00*M11 - M01*M10`, the 2×2 inverse of `M` times `b` when
`|det| > 1e-6`, the origin otherwise. -/
def solveFixedPoint (t : AffineTrans) : AffineTrans :=
  if |(1 - t.a00) * (1 - t.a11) - t.a01 * t.a10| > 1 / 1000000 then
    { t with
      statx := ((1 - t.a11) * t.b0 + t.a01 * t.b1) / ((1 - t.a00) * (1 - t.a11) - t.a01 * t.a10)
      staty := (t.a10 * t.b0 + (1 - t.a00) * t.b1) / ((1 - t.a00) * (1 - t.a11) - t.a01 * t.a10) }
  else { t with statx := 0, staty := 0 }

/-! ## Lemmas on `draw_level` -/

/-- Pairing up the vertex calls of a list of segments gives the segments back. -/
theorem glLines_vertexCalls (segs : List Segment) : glLines (vertexCalls segs) = segs := by
  induction segs with
  | nil => rfl
  | cons s rest ih => simp [vertexCalls, glLines, ih]

/-- Two vertex calls are made for each segment. -/
theorem length_vertexCalls (segs : List Segment) :
    (vertexCalls segs).length = 2 * segs.length := by
  induction segs with
  | nil => rfl
  | cons s rest ih => simp [vertexCalls, ih]; omega

/-- The vertex calls of two lists of segments, one after the other. -/
theorem vertexCalls_append (xs ys : List Segment) :
    vertexCalls (xs ++ ys) = vertexCalls xs ++ vertexCalls ys := by
  induction xs with
  | nil => rfl
  | cons s rest ih => simp [vertexCalls, ih]

/-- The vertex calls of a concatenation are the concatenated vertex calls. -/
theorem vertexCalls_flatten (parts : List (List Segment)) :
    vertexCalls parts.flatten = (parts.map vertexCalls).flatten := by
  induction parts with
  | nil => rfl
  | cons p rest ih => simp [vertexCalls_append, ih]

/-- A polyline emits the vertex calls of its consecutive pairs. -/
theorem chainVerts_eq (p : Vertex) (qs : List Vertex) :
    chainVerts p qs = vertexCalls (List.zip (p :: qs) qs) := by
  induction qs generalizing p with
  | nil => rfl
  | cons q qs ih =>
    rw [chainVerts, ih q, List.zip_cons_cons, vertexCalls]

/-- Entry `i` of the consecutive pairs of a mapped list. -/
theorem getElem?_zip_map_tail {α β : Type} (l : List α) (f : α → β) (i : Nat)
    (h : i + 1 < l.length) :
    (List.zip (l.map f) (l.map f).tail)[i]? = some (f l[i], f l[i + 1]) := by
  rw [List.getElem?_zip_eq_some]
  constructor
  · simp [List.getElem?_eq_getElem (show i < l.length by omega)]
  · cases l with
    | nil => simp at h
    | cons a l =>
      simp at h
      simp [List.getElem?_eq_getElem h]

/-- The loop of lines 44-54, started at index `pre.length` with the image of the record before it
in `(x0, y0)`, emits the polyline through the images of the remaining records. -/
theorem leafLoop_eq (m00 m01 m10 m11 n0 n1 : ℚ) (rest pre : List AffineTrans) (x0 y0 : ℚ) :
    leafLoop (pre ++ rest) m00 m01 m10 m11 n0 n1
        (List.range' pre.length rest.length) x0 y0
      = .ok (chainVerts (x0, y0) (rest.map (fun t =>
          (m00 * t.statx + m01 * t.staty + n0, m10 * t.statx + m11 * t.staty + n1)))) := by
  induction rest generalizing pre x0 y0 with
  | nil => simp [leafLoop, chainVerts]
  | cons t rest ih =>
    have h := ih (pre ++ [t]) (m00 * t.statx + m01 * t.staty + n0)
      (m10 * t.statx + m11 * t.staty + n1)
    simp only [List.length_append, List.length_singleton, List.append_assoc,
      List.singleton_append] at h
    have hget : (pre ++ t :: rest)[pre.length]? = some t := by
      rw [List.getElem?_append_right (Nat.le_refl _)]; simp
    simp only [List.length_cons, List.range', leafLoop, hget, h, List.map_cons, chainVerts]

/-- A run whose body returns for every index returns the concatenation. -/
theorem forEach_eq (body : Nat → Except Fault (List Vertex)) (f : Nat → List Vertex)
    (l : List Nat) (h : ∀ i ∈ l, body i = .ok (f i)) :
    forEach body l = .ok (l.map f).flatten := by
  induction l with
  | nil => rfl
  | cons i rest ih =>
    have hi := h i (List.mem_cons_self i rest)
    have hr := ih (fun j hj => h j (List.mem_cons_of_mem i hj))
    simp [forEach, hi, hr]

/-- With at least one record and room for `d+1` nested calls, `draw_level` at depth
`d ≥ 0` returns the vertex calls of the segments `generate` lists. -/
theorem draw_level_eq_generate (g : Globals) (hN : g.num_trans = g.affine.length)
    (h1 : 1 ≤ g.affine.length) (d : Nat) :
    ∀ (fuel : Nat), d < fuel → ∀ (m00 m01 m10 m11 n0 n1 : ℚ),
      draw_level g fuel d m00 m01 m10 m11 n0 n1
        = .ok (vertexCalls (generate g.affine d m00 m01 m10 m11 n0 n1)) := by
  induction d with
  | zero =>
    intro fuel hf m00 m01 m10 m11 n0 n1
    obtain ⟨f, rfl⟩ : ∃ f, fuel = f + 1 := ⟨fuel - 1, by omega⟩
    cases hA : g.affine with
    | nil => rw [hA] at h1; simp at h1
    | cons t rest =>
      have hlen : g.num_trans.toNat - 1 = rest.length := by
        rw [hN, hA]; simp
      have hloop := leafLoop_eq m00 m01 m10 m11 n0 n1 rest [t]
        (m00 * t.statx + m01 * t.staty + n0) (m10 * t.statx + m11 * t.staty + n1)
      simp only [List.length_singleton, List.singleton_append] at hloop
      simp only [draw_level, Nat.cast_zero, if_true, hA, List.getElem?_cons_zero, hlen, hloop,
        generate, List.map_cons, List.tail_cons, chainVerts_eq]
  | succ d ih =>
    intro fuel hf m00 m01 m10 m11 n0 n1
    obtain ⟨f, rfl⟩ : ∃ f, fuel = f + 1 := ⟨fuel - 1, by omega⟩
    have hne : ((d + 1 : Nat) : Int) ≠ 0 := by omega
    have hpred : ((d + 1 : Nat) : Int) - 1 = (d : Int) := by omega
    have hn : g.num_trans.toNat = g.affine.length := by rw [hN]; simp
    rw [draw_level, if_neg hne, hpred, hn]
    rw [forEach_eq _ (fun i => match g.affine[i]? with
      | none => []
      | some t => vertexCalls (generate g.affine d
          (m00 * t.a00 + m01 * t.a10) (m00 * t.a01 + m01 * t.a11)
          (m10 * t.a00 + m11 * t.a10) (m10 * t.a01 + m11 * t.a11)
          (m00 * t.b0 + m01 * t.b1 + n0) (m10 * t.b0 + m11 * t.b1 + n1)))]
    · rw [generate, vertexCalls_flatten]
      congr 2
      apply List.ext_getElem
      · simp
      · intro i h1 h2
        have hi : i < g.affine.length := by simpa using h1
        simp [List.getElem?_eq_getElem hi]
    · intro i hi
      have hi : i < g.affine.length := by simpa using hi
      simp only [List.getElem?_eq_getElem hi]
      exact ih f (by omega) _ _ _ _ _ _

/-- The number of segments `generate` lists. -/
theorem length_generate (affine : List AffineTrans) (d : Nat) :
    ∀ (m00 m01 m10 m11 n0 n1 : ℚ),
      (generate affine d m00 m01 m10 m11 n0 n1).length
        = affine.length ^ d * (affine.length - 1) := by
  induction d with
  | zero => intro m00 m01 m10 m11 n0 n1; simp [generate]
  | succ d ih =>
    intro m00 m01 m10 m11 n0 n1
    simp only [generate, List.length_flatten, List.map_map]
    have : (List.map (List.length ∘ fun t => generate affine d
          (m00 * t.a00 + m01 * t.a10) (m00 * t.a01 + m01 * t.a11)
          (m10 * t.a00 + m11 * t.a10) (m10 * t.a01 + m11 * t.a11)
          (m00 * t.b0 + m01 * t.b1 + n0) (m10 * t.b0 + m11 * t.b1 + n1)) affine)
        = List.replicate affine.length (affine.length ^ d * (affine.length - 1)) := by
      apply List.ext_getElem
      · simp
      · intro i h1 h2
        simp [ih]
    rw [this, List.sum_replicate]
    simp [pow_succ]; ring

/-- At a positive depth `draw_level` returns also for an empty array. -/
theorem draw_level_succ_eq (g : Globals) (hN : g.num_trans = g.affine.length)
    (d fuel : Nat) (hf : d < fuel) (m00 m01 m10 m11 n0 n1 : ℚ) :
    draw_level g (fuel + 1) ((d : Int) + 1) m00 m01 m10 m11 n0 n1
      = .ok (g.affine.map (fun t => vertexCalls (generate g.affine d
          (m00 * t.a00 + m01 * t.a10) (m00 * t.a01 + m01 * t.a11)
          (m10 * t.a00 + m11 * t.a10) (m10 * t.a01 + m11 * t.a11)
          (m00 * t.b0 + m01 * t.b1 + n0) (m10 * t.b0 + m11 * t.b1 + n1)))).flatten := by
  rcases Nat.eq_zero_or_pos g.affine.length with h0 | hpos
  · have hA : g.affine = [] := List.length_eq_zero.mp h0
    have hne : (d : Int) + 1 ≠ 0 := by omega
    rw [draw_level, if_neg hne, hN, hA]
    rfl
  · have h := draw_level_eq_generate g hN hpos (d + 1) (fuel + 1) (by omega)
      m00 m01 m10 m11 n0 n1
    rw [Nat.cast_succ] at h
    rw [h, generate, vertexCalls_flatten, List.map_map]
    rfl

/-- Pairing up concatenated vertex calls, part by part. -/
theorem glLines_flatten_vertexCalls (parts : List (List Segment)) :
    glLines (parts.map vertexCalls).flatten
      = ((parts.map vertexCalls).map glLines).flatten := by
  rw [← vertexCalls_flatten, glLines_vertexCalls, List.map_map]
  congr 1
  conv_lhs => rw [← List.map_id parts]
  apply List.map_congr_left
  intro p _
  simp [glLines_vertexCalls]

/-! ## Lemmas on `readConfigFile` -/

/-- The solver on a map with matrix `0.25 * I` and constant vector `(b0, 0)`. -/
theorem stationaryPoint_quarter (t : AffineTrans) (hb1 : t.b1 = 0)
    (h00 : t.a00 = 0.25) (h01 : t.a01 = 0) (h10 : t.a10 = 0) (h11 : t.a11 = 0.25) :
    stationaryPoint t = .ok { t with statx := 4 / 3 * t.b0, staty := 0 } := by
  have hdet : (1.0 - t.a00) * (1.0 - t.a11) - (-t.a01) * (-t.a10) = 9 / 16 := by
    rw [h00, h01, h10, h11]; norm_num
  have hgt : |(9 / 16 : ℚ)| > 1.0e-6 := by norm_num [abs_of_pos]
  simp only [stationaryPoint, stationaryPointWith, hdet, hgt, if_true, divide]
  rw [if_neg (by norm_num)]
  simp only [h00, h01, h10, h11, hb1]
  norm_num
  ring

/-- The solver on a map with `|det(I - a)| > 1e-6`: the quotients it stores. -/
theorem stationaryPoint_solve (t : AffineTrans)
    (h : |(1 - t.a00) * (1 - t.a11) - t.a01 * t.a10| > 1 / 1000000) :
    stationaryPoint t = .ok { t with
      statx := ((1 - t.a11) * t.b0 + t.a01 * t.b1) / ((1 - t.a00) * (1 - t.a11) - t.a01 * t.a10)
      staty := (t.a10 * t.b0 + (1 - t.a00) * t.b1) / ((1 - t.a00) * (1 - t.a11) - t.a01 * t.a10) } := by
  have hdet : (1.0 - t.a00) * (1.0 - t.a11) - (-t.a01) * (-t.a10)
      = (1 - t.a00) * (1 - t.a11) - t.a01 * t.a10 := by norm_num
  have hgt : |(1 - t.a00) * (1 - t.a11) - t.a01 * t.a10| > 1.0e-6 := by
    have e : (1.0e-6 : ℚ) = 1 / 1000000 := by norm_num
    rw [e]; exact h
  have hne : (1 - t.a00) * (1 - t.a11) - t.a01 * t.a10 ≠ 0 := by
    intro h0
    rw [h0] at h
    norm_num at h
  simp only [stationaryPoint, stationaryPointWith, hdet, hgt, if_true, divide, if_neg hne]
  have e1 : (1.0 - t.a11) * t.b0 - -t.a01 * t.b1 = (1 - t.a11) * t.b0 + t.a01 * t.b1 := by
    norm_num
  have e2 : - -t.a10 * t.b0 + (1.0 - t.a00) * t.b1 = t.a10 * t.b0 + (1 - t.a00) * t.b1 := by
    norm_num
  rw [e1, e2]

/-- The solver on a map with `|det(I - a)| ≤ 1e-6`, whatever the quotient operation. -/
theorem stationaryPointWith_of_le (t : AffineTrans)
    (h : |(1 - t.a00) * (1 - t.a11) - t.a01 * t.a10| ≤ 1 / 1000000)
    (quot : ℚ → ℚ → Except Fault ℚ) :
    stationaryPointWith quot t = .ok { t with statx := 0, staty := 0 } := by
  have hdet : (1.0 - t.a00) * (1.0 - t.a11) - (-t.a01) * (-t.a10)
      = (1 - t.a00) * (1 - t.a11) - t.a01 * t.a10 := by norm_num
  have hle : ¬ |(1 - t.a00) * (1 - t.a11) - t.a01 * t.a10| > 1.0e-6 := by
    have e : (1.0e-6 : ℚ) = 1 / 1000000 := by norm_num
    rw [e]; exact not_lt.mpr h
  have z : (0.0 : ℚ) = 0 := by norm_num
  simp only [stationaryPointWith, hdet, if_neg hle, z]

/-- The solver always returns, with the record of `solveFixedPoint`. -/
theorem stationaryPoint_eq_solve (t : AffineTrans) :
    stationaryPoint t = .ok (solveFixedPoint t) := by
  by_cases h : |(1 - t.a00) * (1 - t.a11) - t.a01 * t.a10| > 1 / 1000000
  · rw [stationaryPoint_solve t h, solveFixedPoint, if_pos h]
  · rw [stationaryPoint, stationaryPointWith_of_le t (not_lt.mp h), solveFixedPoint, if_neg h]

/-- The globals the else branch of `readConfigFile` leaves. -/
theorem setDefault_eq (env : Surroundings) (g : Globals) :
    setDefault env g = .ok { g with
      window_title := "Cantor Dust".toList
      num_trans := 2
      affine := [⟨0.25, 0.00, 0.00, 0.25, 0.0, 0.0, (env.heap 0).statx, (env.heap 0).staty⟩,
                 ⟨0.25, 0.00, 0.00, 0.25, 0.5, 0.0, (env.heap 1).statx, (env.heap 1).staty⟩] } := rfl

/-- The solver loop on an array of two records. -/
theorem stationaryLoop_pair (a b a1 b1 : AffineTrans) (ha : stationaryPoint a = .ok a1)
    (hb : stationaryPoint b = .ok b1) :
    stationaryLoop [0, 1] [a, b] = .ok [a1, b1] := by
  simp only [stationaryLoop, List.getElem?_cons_zero, List.getElem?_cons_succ,
    List.set_cons_zero, List.set_cons_succ, ha, hb]

/-- The function `readConfigFile` when the file is missing, by its two stages. -/
theorem readConfigFile_of_none (env : Surroundings) (g g1 : Globals) (aff : List AffineTrans)
    (h : env.file = none) (h1 : setDefault env g = .ok g1)
    (h2 : stationaryLoop (List.range g1.num_trans.toNat) g1.affine = .ok aff) :
    readConfigFile env g = .ok { g1 with affine := aff } := by
  simp only [readConfigFile, h, h1, h2]

/-- The globals `readConfigFile` leaves when the file is missing. -/
theorem readConfigFile_none (env : Surroundings) (g : Globals) (h : env.file = none) :
    readConfigFile env g = .ok { g with
      window_title := "Cantor Dust".toList
      num_trans := 2
      affine := [⟨0.25, 0.00, 0.00, 0.25, 0.0, 0.0, 0, 0⟩,
                 ⟨0.25, 0.00, 0.00, 0.25, 0.5, 0.0, 2 / 3, 0⟩] } := by
  have e0 : stationaryPoint
      ⟨0.25, 0.00, 0.00, 0.25, 0.0, 0.0, (env.heap 0).statx, (env.heap 0).staty⟩
      = .ok ⟨0.25, 0.00, 0.00, 0.25, 0.0, 0.0, 0, 0⟩ := by
    rw [stationaryPoint_quarter _ (by norm_num) rfl (by norm_num) (by norm_num) rfl]
    norm_num
  have e1 : stationaryPoint
      ⟨0.25, 0.00, 0.00, 0.25, 0.5, 0.0, (env.heap 1).statx, (env.heap 1).staty⟩
      = .ok ⟨0.25, 0.00, 0.00, 0.25, 0.5, 0.0, 2 / 3, 0⟩ := by
    rw [stationaryPoint_quarter _ (by norm_num) rfl (by norm_num) (by norm_num) rfl]
    norm_num
  exact readConfigFile_of_none env g _ _ h (setDefault_eq env g) (stationaryLoop_pair _ _ _ _ e0 e1)

/-- Reading `m` lines and then `n` more. -/
theorem readerAfter_add (m n : Nat) (r : Reader) :
    readerAfter (m + n) r = readerAfter n (readerAfter m r) := by
  induction m generalizing r with
  | zero => simp [readerAfter]
  | succ m ih =>
    have e : m + 1 + n = (m + n) + 1 := by omega
    rw [e, readerAfter, readerAfter, ih]

/-- The loop of lines 234-244 over the indices `k, ..., k+n-1` of an array that has them,
when the conversions on the lines read are described and give the values `vals i`:
it returns, and record `i` in that range gets the values `vals i`. -/
theorem readTransLoop_spec (vals : Nat → List ℚ) (n : Nat) :
    ∀ (k : Nat) (r : Reader) (affine : List AffineTrans),
    k + n ≤ affine.length →
    (∀ i : Nat, k ≤ i → i < k + n →
      scanDoubles 6 (readerAfter (i - k + 1) r).inputline = .ok (vals i)) →
    ∃ aff : List AffineTrans, readTransLoop (List.range' k n) r affine = .ok aff ∧
      aff.length = affine.length ∧
      ∀ (i : Nat) (t : AffineTrans), affine[i]? = some t →
        aff[i]? = some (if k ≤ i ∧ i < k + n then storeCoefficients t (vals i) else t) := by
  induction n with
  | zero =>
    intro k r affine _ _
    refine ⟨affine, rfl, rfl, ?_⟩
    intro i t hi
    rw [if_neg (by omega), hi]
  | succ n ih =>
    intro k r affine hk hv
    have hlt : k < affine.length := by omega
    have hvk : scanDoubles 6 (fgets 256 r).inputline = .ok (vals k) := by
      have h := hv k (Nat.le_refl k) (by omega)
      have e : k - k + 1 = 0 + 1 := by omega
      rw [e] at h
      exact h
    obtain ⟨aff, h1, h2, h3⟩ := ih (k + 1) (fgets 256 r)
      (affine.set k (storeCoefficients affine[k] (vals k)))
      (by rw [List.length_set]; omega)
      (by
        intro i hi1 hi2
        have h := hv i (by omega) (by omega)
        have e : i - k + 1 = (i - (k + 1) + 1) + 1 := by omega
        rw [e] at h
        exact h)
    refine ⟨aff, ?_, ?_, ?_⟩
    · rw [List.range'_succ, readTransLoop]
      simp only [List.getElem?_eq_getElem hlt, hvk]
      exact h1
    · rw [h2, List.length_set]
    · intro i t hi
      by_cases hik : i = k
      · subst hik
        have ht : affine[i] = t := by
          rw [List.getElem?_eq_getElem hlt] at hi
          exact Option.some.inj hi
        rw [h3 i _ (List.getElem?_set_self hlt), if_neg (by omega), if_pos (by omega), ht]
      · have hne : k ≠ i := fun h => hik h.symm
        rw [h3 i t (by rw [List.getElem?_set_ne hne]; exact hi)]
        by_cases hc : k + 1 ≤ i ∧ i < k + 1 + n
        · rw [if_pos hc, if_pos (by omega)]
        · rw [if_neg hc, if_neg (by omega)]

/-- The loop of lines 260-283 over the indices `k, ..., k+n-1` of an array that has them. -/
theorem stationaryLoop_spec (n : Nat) : ∀ (k : Nat) (affine : List AffineTrans),
    k + n ≤ affine.length →
    ∃ aff : List AffineTrans, stationaryLoop (List.range' k n) affine = .ok aff ∧
      aff.length = affine.length ∧
      ∀ (i : Nat) (t : AffineTrans), affine[i]? = some t →
        aff[i]? = some (if k ≤ i ∧ i < k + n then solveFixedPoint t else t) := by
  induction n with
  | zero =>
    intro k affine _
    refine ⟨affine, rfl, rfl, ?_⟩
    intro i t hi
    rw [if_neg (by omega), hi]
  | succ n ih =>
    intro k affine hk
    have hlt : k < affine.length := by omega
    obtain ⟨aff, h1, h2, h3⟩ := ih (k + 1) (affine.set k (solveFixedPoint affine[k]))
      (by rw [List.length_set]; omega)
    refine ⟨aff, ?_, ?_, ?_⟩
    · rw [List.range'_succ, stationaryLoop]
      simp only [List.getElem?_eq_getElem hlt, stationaryPoint_eq_solve]
      exact h1
    · rw [h2, List.length_set]
    · intro i t hi
      by_cases hik : i = k
      · subst hik
        have ht : affine[i] = t := by
          rw [List.getElem?_eq_getElem hlt] at hi
          exact Option.some.inj hi
        rw [h3 i _ (List.getElem?_set_self hlt), if_neg (by omega), if_pos (by omega), ht]
      · have hne : k ≠ i := fun h => hik h.symm
        rw [h3 i t (by rw [List.getElem?_set_ne hne]; exact hi)]
        by_cases hc : k + 1 ≤ i ∧ i < k + 1 + n
        · rw [if_pos hc, if_pos (by omega)]
        · rw [if_neg hc, if_neg (by omega)]

/-- The loop of lines 234-244 over a freshly allocated array, when the conversions on
the lines read are described. -/
theorem readTransLoop_range (vals : Nat → List ℚ) (N : Nat) (r : Reader)
    (heap : Nat → AffineTrans)
    (hv : ∀ i : Nat, i < N → scanDoubles 6 (readerAfter (i + 1) r).inputline = .ok (vals i)) :
    readTransLoop (List.range N) r ((List.range N).map heap)
      = .ok ((List.range N).map (fun i => storeCoefficients (heap i) (vals i))) := by
  obtain ⟨aff, h1, h2, h3⟩ := readTransLoop_spec vals N 0 r ((List.range N).map heap)
    (by simp) (by
      intro i _ hi
      have h := hv i (by omega)
      have e : i - 0 + 1 = i + 1 := by omega
      rw [e]
      exact h)
  rw [← List.range_eq_range'] at h1
  rw [h1]
  congr 1
  apply List.ext_getElem?
  intro i
  by_cases hi : i < N
  · have hget : ((List.range N).map heap)[i]? = some (heap i) := by
      rw [List.getElem?_map, List.getElem?_range hi]; rfl
    rw [h3 i (heap i) hget, if_pos (by omega), List.getElem?_map, List.getElem?_range hi]
    rfl
  · have hlen : aff.length ≤ i := by rw [h2]; simp; omega
    rw [List.getElem?_eq_none hlen, List.getElem?_eq_none (by simp; omega)]

/-- The loop of lines 260-283 over a whole array. -/
theorem stationaryLoop_range (affine : List AffineTrans) :
    stationaryLoop (List.range affine.length) affine = .ok (affine.map solveFixedPoint) := by
  obtain ⟨aff, h1, h2, h3⟩ := stationaryLoop_spec affine.length 0 affine (by omega)
  rw [← List.range_eq_range'] at h1
  rw [h1]
  congr 1
  apply List.ext_getElem?
  intro i
  by_cases hi : i < affine.length
  · rw [h3 i affine[i] (List.getElem?_eq_getElem hi), if_pos (by omega), List.getElem?_map,
      List.getElem?_eq_getElem hi]
    rfl
  · rw [List.getElem?_eq_none (by omega), List.getElem?_eq_none (by simp; omega)]

/-- The globals `readConfigFile` leaves when the file opens, its title has room, the
count line leaves `num_trans = N` and the conversions on the map lines are described
and give the values `vals i`. -/
theorem readConfigFile_opened (env : Surroundings) (g : Globals) (contents : List Char)
    (N : Int) (vals : Nat → List ℚ)
    (h : env.file = some contents)
    (htitle : ∀ t : List Char,
      scanTitle (readerAfter 3 ⟨env.inputline, contents⟩).inputline = some t →
        t.length ≤ WIN_TITLE_LENGTH)
    (hcount : (scanInt (readerAfter 5 ⟨env.inputline, contents⟩).inputline = .noMatch ∧
        N = g.num_trans) ∨
      ∃ rest : List Char,
        scanInt (readerAfter 5 ⟨env.inputline, contents⟩).inputline = .converted N rest)
    (hvals : ∀ i : Nat, i < N.toNat →
      scanDoubles 6 (readerAfter (7 + i) ⟨env.inputline, contents⟩).inputline
        = .ok (vals i)) :
    readConfigFile env g = .ok { g with
      window_title :=
        (match scanTitle (readerAfter 3 ⟨env.inputline, contents⟩).inputline with
          | none => g.window_title
          | some t => t)
      num_trans := N
      affine := (List.range N.toNat).map (fun i =>
        solveFixedPoint (storeCoefficients (env.heap i) (vals i))) } := by
  have hr : ∀ i : Nat, readerAfter (i + 1) (readerAfter 6 ⟨env.inputline, contents⟩)
      = readerAfter (7 + i) ⟨env.inputline, contents⟩ := by
    intro i
    rw [← readerAfter_add]
    congr 1
    omega
  have h3 : fgets 256 (fgets 256 (fgets 256 ⟨env.inputline, contents⟩))
      = readerAfter 3 ⟨env.inputline, contents⟩ := rfl
  have h5 : fgets 256 (fgets 256 (readerAfter 3 ⟨env.inputline, contents⟩))
      = readerAfter 5 ⟨env.inputline, contents⟩ := rfl
  have h6 : fgets 256 (readerAfter 5 ⟨env.inputline, contents⟩)
      = readerAfter 6 ⟨env.inputline, contents⟩ := rfl
  have hloop := readTransLoop_range vals N.toNat (readerAfter 6 ⟨env.inputline, contents⟩)
    env.heap (by
      intro i hi
      rw [hr i]
      exact hvals i hi)
  have hl := stationaryLoop_range ((List.range N.toNat).map (fun i =>
    storeCoefficients (env.heap i) (vals i)))
  simp only [List.length_map, List.length_range, List.map_map] at hl
  rw [readConfigFile, h]
  simp only [readOpenedFile, h3]
  cases hT : scanTitle (readerAfter 3 ⟨env.inputline, contents⟩).inputline with
  | none =>
    simp only [h5, h6, mallocAffine]
    rcases hcount with ⟨hI, hN⟩ | ⟨rest, hI⟩
    · subst hN
      simp only [hI, storeCount, hloop, hl]
      rfl
    · simp only [hI, storeCount, hloop, hl]
      rfl
  | some t =>
    have hfit : t.length ≤ WIN_TITLE_LENGTH := htitle t hT
    simp only [if_pos hfit, h5, h6, mallocAffine]
    rcases hcount with ⟨hI, hN⟩ | ⟨rest, hI⟩
    · subst hN
      simp only [hI, storeCount, hloop, hl]
      rfl
    · simp only [hI, storeCount, hloop, hl]
      rfl

/-- The conversion of the first number on the line `1 2`. -/
theorem scanDouble_one : scanDouble "1 2\n".toList = .converted 1 " 2\n".toList := by
  have g1 : ((2 : ℚ) ^ 1022)⁻¹ ≤ 1 ∧ (1 : ℚ) < 2 ^ 1023 := by norm_num
  simp [scanDouble, scanSign, isSpace, scanExponent, digitsValue, decimalValue, g1]

/-- The conversion of the second number on the line `1 2`. -/
theorem scanDouble_two : scanDouble " 2\n".toList = .converted 2 "\n".toList := by
  have g1 : ((2 : ℚ) ^ 1022)⁻¹ ≤ 2 ∧ (2 : ℚ) < 2 ^ 1023 := by norm_num
  simp [scanDouble, scanSign, isSpace, scanExponent, digitsValue, decimalValue, g1]

/-- At the end of the line no number matches. -/
theorem scanDouble_end : scanDouble "\n".toList = .noMatch := by
  simp [scanDouble, scanSign, isSpace]

/-- The conversions made on the line `1 2`. -/
theorem scanDoubles_one_two : scanDoubles 6 "1 2\n".toList = .ok [1, 2] := by
  simp only [scanDoubles, scanDouble_one, scanDouble_two, scanDouble_end]

/-- Inputs whose conversion the model does not describe get no value: a hexadecimal
number, a NaN, an exponent letter that no digit follows, a count beyond `int`. -/
theorem conversions_not_described :
    scanDoubles 6 "0x10 0 0 0.5 1 0\n".toList = .error .notModelled ∧
    scanDoubles 6 "nan 0 0 0.5 1 0\n".toList = .error .notModelled ∧
    scanDoubles 6 "1e 2 3 4 5 6\n".toList = .error .notModelled ∧
    scanInt "4294967298\n".toList = .notModelled :=
  ⟨rfl, rfl, rfl, rfl⟩

/-- The conversions made on the two map lines `readConfigFile` reads from
`shortLineFile`: the line `1 2`, and the same buffer again at the end of the file. -/
theorem scanDoubles_shortLine (i : Nat) (hi : i < (2 : Int).toNat) :
    scanDoubles 6 (readerAfter (7 + i) ⟨shortLineEnv.inputline, shortLineFile⟩).inputline
      = .ok [1, 2] := by
  have h0 : (readerAfter (7 + 0) ⟨shortLineEnv.inputline, shortLineFile⟩).inputline
      = "1 2\n".toList := rfl
  have h1 : (readerAfter (7 + 1) ⟨shortLineEnv.inputline, shortLineFile⟩).inputline
      = "1 2\n".toList := rfl
  have hi2 : i < 2 := hi
  interval_cases i
  · rw [h0]; exact scanDoubles_one_two
  · rw [h1]; exact scanDoubles_one_two

/-- The title of `shortLineFile` has room in `window_title`. -/
theorem title_shortLine (t : List Char)
    (ht : scanTitle (readerAfter 3 ⟨shortLineEnv.inputline, shortLineFile⟩).inputline
      = some t) : t.length ≤ WIN_TITLE_LENGTH := by
  have e : scanTitle (readerAfter 3 ⟨shortLineEnv.inputline, shortLineFile⟩).inputline
      = some "Koch Curve".toList := rfl
  rw [e] at ht
  cases ht
  decide

/-- The stationary point for the coefficients `1 2 9 9 9 9`. -/
theorem solveFixedPoint_nines :
    solveFixedPoint ⟨1, 2, 9, 9, 9, 9, 9, 9⟩ = ⟨1, 2, 9, 9, 9, 9, 3, -9 / 2⟩ := by
  have h : |(1 - (1 : ℚ)) * (1 - 9) - 2 * 9| > 1 / 1000000 := by norm_num [abs_of_neg]
  rw [solveFixedPoint, if_pos h]
  norm_num

/-- The globals `readConfigFile` leaves for `shortLineFile`. -/
theorem readConfigFile_shortLine :
    readConfigFile shortLineEnv initialGlobals = .ok { initialGlobals with
      window_title := "Koch Curve".toList
      num_trans := 2
      affine := [⟨1, 2, 9, 9, 9, 9, 3, -9 / 2⟩, ⟨1, 2, 9, 9, 9, 9, 3, -9 / 2⟩] } := by
  have hT : scanTitle (readerAfter 3 ⟨shortLineEnv.inputline, shortLineFile⟩).inputline
      = some "Koch Curve".toList := rfl
  have hr : List.range (2 : Int).toNat = [0, 1] := rfl
  have hs : storeCoefficients (⟨9, 9, 9, 9, 9, 9, 9, 9⟩ : AffineTrans) [1, 2]
      = ⟨1, 2, 9, 9, 9, 9, 9, 9⟩ := rfl
  have h := readConfigFile_opened shortLineEnv initialGlobals shortLineFile 2 (fun _ => [1, 2])
    rfl title_shortLine (Or.inr ⟨[Char.ofNat 10], rfl⟩) scanDoubles_shortLine
  rw [h]
  have e2 : ∀ i, shortLineEnv.heap i = ⟨9, 9, 9, 9, 9, 9, 9, 9⟩ := fun _ => rfl
  simp only [e2, hT, hr, List.map_cons, List.map_nil, hs, solveFixedPoint_nines]

/-! ## Lemmas on the view -/

/-- After `Reshape` the matrix is the one the three variables describe, when
`scale_factor` is 1. -/
theorem viewTracked_Reshape (g : Globals) (h : g.scale_factor = 1) :
    viewTracked (Reshape g) := by
  refine ⟨?_, ?_, ?_, ?_⟩
  · show (1 : ℚ) * g.scale_factor = 1
    rw [h]; norm_num
  · show (0 : ℚ) + 1 * (-1.0) = 1 * (-1.0)
    norm_num
  · show (0 : ℚ) + 1 * 0.0 = 1 * 0.0
    norm_num
  · show (0 : ℚ) + 1 * (-5.0) = -5
    norm_num

/-- Every pan and zoom key keeps the matrix and the three variables in step. -/
theorem viewTracked_Special (k : Int) (g : Globals) (h : viewTracked g) :
    viewTracked (Special k g) := by
  obtain ⟨h1, h2, h3, h4⟩ := h
  unfold Special
  split_ifs
  · refine ⟨h1, ?_, ?_, ?_⟩
    · show g.modelview.tx + g.modelview.s * 0.0 = g.modelview.s * g.xwin
      rw [h2]; norm_num
    · show g.modelview.ty + g.modelview.s * (0.1 * g.scale_factor)
        = g.modelview.s * (g.ywin + 0.1 * g.scale_factor)
      rw [h3]; ring
    · show g.modelview.tz + g.modelview.s * 0.0 = -5
      rw [h4]; norm_num
  · refine ⟨h1, ?_, ?_, ?_⟩
    · show g.modelview.tx + g.modelview.s * 0.0 = g.modelview.s * g.xwin
      rw [h2]; norm_num
    · show g.modelview.ty + g.modelview.s * (-0.1 * g.scale_factor)
        = g.modelview.s * (g.ywin - 0.1 * g.scale_factor)
      rw [h3]; ring
    · show g.modelview.tz + g.modelview.s * 0.0 = -5
      rw [h4]; norm_num
  · refine ⟨h1, ?_, ?_, ?_⟩
    · show g.modelview.tx + g.modelview.s * (-0.1 * g.scale_factor)
        = g.modelview.s * (g.xwin - 0.1 * g.scale_factor)
      rw [h2]; ring
    · show g.modelview.ty + g.modelview.s * 0.0 = g.modelview.s * g.ywin
      rw [h3]; norm_num
    · show g.modelview.tz + g.modelview.s * 0.0 = -5
      rw [h4]; norm_num
  · refine ⟨h1, ?_, ?_, ?_⟩
    · show g.modelview.tx + g.modelview.s * (0.1 * g.scale_factor)
        = g.modelview.s * (g.xwin + 0.1 * g.scale_factor)
      rw [h2]; ring
    · show g.modelview.ty + g.modelview.s * 0.0 = g.modelview.s * g.ywin
      rw [h3]; norm_num
    · show g.modelview.tz + g.modelview.s * 0.0 = -5
      rw [h4]; norm_num
  · refine ⟨?_, ?_, ?_, ?_⟩
    · show g.modelview.s * 1.25 * (g.scale_factor * 0.8) = 1
      have e : g.modelview.s * 1.25 * (g.scale_factor * 0.8)
          = g.modelview.s * g.scale_factor := by norm_num; ring
      rw [e, h1]
    · show g.modelview.tx + g.modelview.s * (-g.xwin) + g.modelview.s * 1.25 * g.xwin
        = g.modelview.s * 1.25 * g.xwin
      rw [h2]; ring
    · show g.modelview.ty + g.modelview.s * (-g.ywin) + g.modelview.s * 1.25 * g.ywin
        = g.modelview.s * 1.25 * g.ywin
      rw [h3]; ring
    · show g.modelview.tz + g.modelview.s * 0.0 + g.modelview.s * 1.25 * 0.0 = -5
      rw [h4]; norm_num
  · refine ⟨?_, ?_, ?_, ?_⟩
    · show g.modelview.s * 0.8 * (g.scale_factor * 1.25) = 1
      have e : g.modelview.s * 0.8 * (g.scale_factor * 1.25)
          = g.modelview.s * g.scale_factor := by norm_num; ring
      rw [e, h1]
    · show g.modelview.tx + g.modelview.s * (-g.xwin) + g.modelview.s * 0.8 * g.xwin
        = g.modelview.s * 0.8 * g.xwin
      rw [h2]; ring
    · show g.modelview.ty + g.modelview.s * (-g.ywin) + g.modelview.s * 0.8 * g.ywin
        = g.modelview.s * 0.8 * g.ywin
      rw [h3]; ring
    · show g.modelview.tz + g.modelview.s * 0.0 + g.modelview.s * 0.8 * 0.0 = -5
      rw [h4]; norm_num
  · exact ⟨h1, h2, h3, h4⟩

/-! ## Lemmas on the callbacks -/

/-- The function `Key` leaves the transform set, the title and `scale_factor` alone. -/
theorem Key_frame (c : Char) (g : Globals) :
    (Key c g).num_trans = g.num_trans ∧ (Key c g).affine = g.affine ∧
    (Key c g).window_title = g.window_title ∧ (Key c g).scale_factor = g.scale_factor := by
  unfold Key
  split_ifs <;> exact ⟨rfl, rfl, rfl, rfl⟩

/-- The function `Key` changes `num_levels` by one step at most, and downwards only
from a positive value. -/
theorem Key_num_levels (c : Char) (g : Globals) :
    (Key c g).num_levels = g.num_levels ∨ (Key c g).num_levels = g.num_levels + 1 ∨
    (0 < g.num_levels ∧ (Key c g).num_levels = g.num_levels - 1) := by
  unfold Key
  split_ifs with h1 h2 h3 h4 h5
  · exact Or.inl rfl
  · exact Or.inr (Or.inl rfl)
  · exact Or.inr (Or.inr ⟨h4, rfl⟩)
  · exact Or.inl rfl
  · exact Or.inl rfl
  · exact Or.inl rfl

/-- The function `Special` leaves the depth, the transform set and the title alone. -/
theorem Special_frame (k : Int) (g : Globals) :
    (Special k g).num_levels = g.num_levels ∧ (Special k g).num_trans = g.num_trans ∧
    (Special k g).affine = g.affine ∧ (Special k g).window_title = g.window_title := by
  unfold Special
  split_ifs <;> exact ⟨rfl, rfl, rfl, rfl⟩

/-- Every callback leaves the transform set alone. -/
theorem handle_frame (e : Event) (g : Globals) :
    (handle e g).num_trans = g.num_trans ∧ (handle e g).affine = g.affine := by
  cases e with
  | key c => exact ⟨(Key_frame c g).1, (Key_frame c g).2.1⟩
  | special k => exact ⟨(Special_frame k g).2.1, (Special_frame k g).2.2.1⟩
  | reshape w h => exact ⟨rfl, rfl⟩

/-- Every callback keeps a non-negative depth non-negative and raises it by one at most. -/
theorem handle_num_levels (e : Event) (g : Globals) (h : 0 ≤ g.num_levels) :
    0 ≤ (handle e g).num_levels ∧ (handle e g).num_levels ≤ g.num_levels + 1 := by
  cases e with
  | key c =>
    show 0 ≤ (Key c g).num_levels ∧ (Key c g).num_levels ≤ g.num_levels + 1
    rcases Key_num_levels c g with h1 | h1 | ⟨h0, h1⟩ <;> rw [h1] <;> omega
  | special k =>
    show 0 ≤ (Special k g).num_levels ∧ (Special k g).num_levels ≤ g.num_levels + 1
    rw [(Special_frame k g).1]; omega
  | reshape w h =>
    show 0 ≤ g.num_levels ∧ g.num_levels ≤ g.num_levels + 1
    omega

/-- After any sequence of events the transform set is as before, and a depth that was
non-negative is non-negative still and has grown by the number of events at most. -/
theorem run_invariant (es : List Event) : ∀ g : Globals,
    (run es g).num_trans = g.num_trans ∧ (run es g).affine = g.affine ∧
    (0 ≤ g.num_levels →
      0 ≤ (run es g).num_levels ∧ (run es g).num_levels ≤ g.num_levels + es.length) := by
  induction es with
  | nil =>
    intro g
    exact ⟨rfl, rfl, fun h => ⟨h, by simp [run]⟩⟩
  | cons e es ih =>
    intro g
    have hrun : run (e :: es) g = run es (handle e g) := rfl
    obtain ⟨h1, h2, h3⟩ := ih (handle e g)
    obtain ⟨f1, f2⟩ := handle_frame e g
    rw [hrun]
    refine ⟨by rw [h1, f1], by rw [h2, f2], ?_⟩
    intro h
    obtain ⟨n1, n2⟩ := handle_num_levels e g h
    obtain ⟨m1, m2⟩ := h3 n1
    refine ⟨m1, ?_⟩
    simp only [List.length_cons, Nat.cast_add, Nat.cast_one]
    omega

/-- With a record in the array and `num_trans` positive, a call of `draw_level` with a
negative depth uses up every bound on the nesting of calls. -/
theorem draw_level_negative (g : Globals) (hn : 1 ≤ g.num_trans) (ha : 1 ≤ g.affine.length)
    (fuel : Nat) : ∀ (num : Int), num < 0 → ∀ (m00 m01 m10 m11 n0 n1 : ℚ),
      draw_level g fuel num m00 m01 m10 m11 n0 n1 = .error .outOfFuel := by
  induction fuel with
  | zero => intro num _ m00 m01 m10 m11 n0 n1; rfl
  | succ fuel ih =>
    intro num hnum m00 m01 m10 m11 n0 n1
    have hne : num ≠ 0 := by omega
    obtain ⟨k, hk⟩ : ∃ k, g.num_trans.toNat = k + 1 := ⟨g.num_trans.toNat - 1, by omega⟩
    rw [draw_level, if_neg hne, hk, List.range_succ_eq_map, forEach]
    simp only [List.getElem?_eq_getElem (show 0 < g.affine.length by omega)]
    rw [ih (num - 1) (by omega)]

/-! ## Lemmas on `draw_level` under a composite transform -/

/-- A run whose body never reads outside the array does not either. -/
theorem forEach_ne_outOfRange (body : Nat → Except Fault (List Vertex)) (l : List Nat)
    (h : ∀ i ∈ l, body i ≠ .error .outOfRange) :
    forEach body l ≠ .error .outOfRange := by
  induction l with
  | nil => intro hc; cases hc
  | cons i rest ih =>
    have hi := h i (List.mem_cons_self i rest)
    have hr := ih (fun j hj => h j (List.mem_cons_of_mem i hj))
    rw [forEach]
    cases hb : body i with
    | error e =>
      rw [hb] at hi
      exact hi
    | ok vs =>
      cases hf : forEach body rest with
      | error e =>
        rw [hf] at hr
        exact hr
      | ok ws => intro hc; cases hc

/-- With `num_trans` records in the array, at least one, no call of `draw_level` reads
outside the array, whatever the depth and the bound on nested calls. -/
theorem draw_level_ne_outOfRange (g : Globals) (hN : g.num_trans = g.affine.length)
    (h1 : 1 ≤ g.affine.length) (fuel : Nat) :
    ∀ (num : Int) (m00 m01 m10 m11 n0 n1 : ℚ),
      draw_level g fuel num m00 m01 m10 m11 n0 n1 ≠ .error .outOfRange := by
  induction fuel with
  | zero =>
    intro num m00 m01 m10 m11 n0 n1 hc
    cases hc
  | succ fuel ih =>
    intro num m00 m01 m10 m11 n0 n1
    by_cases hnum : num = 0
    · have h := draw_level_eq_generate g hN h1 0 (fuel + 1) (by omega) m00 m01 m10 m11 n0 n1
      rw [hnum]
      rw [Nat.cast_zero] at h
      rw [h]
      intro hc
      cases hc
    · rw [draw_level, if_neg hnum]
      apply forEach_ne_outOfRange
      intro i hi
      have hi2 : i < g.affine.length := by
        rw [hN] at hi
        simpa using hi
      simp only [List.getElem?_eq_getElem hi2]
      exact ih _ _ _ _ _ _ _

/-- Pairing up the images of vertex calls gives the images of the segments. -/
theorem glLines_map (f : Vertex → Vertex) : ∀ vs : List Vertex,
    glLines (vs.map f) = (glLines vs).map (fun s => (f s.1, f s.2))
  | [] => rfl
  | [_] => rfl
  | a :: b :: rest => by
    simp only [List.map_cons, glLines, glLines_map f rest]

/-- The loop of lines 44-54 under a composite transform pre-composed with another
emits the images of the vertices it emits under the other. -/
theorem leafLoop_compose (affine : List AffineTrans)
    (m00 m01 m10 m11 n0 n1 A00 A01 A10 A11 a0 a1 : ℚ) (idx : List Nat) :
    ∀ (x0 y0 : ℚ),
      leafLoop affine (m00 * A00 + m01 * A10) (m00 * A01 + m01 * A11)
          (m10 * A00 + m11 * A10) (m10 * A01 + m11 * A11)
          (m00 * a0 + m01 * a1 + n0) (m10 * a0 + m11 * a1 + n1) idx
          (m00 * x0 + m01 * y0 + n0) (m10 * x0 + m11 * y0 + n1)
        = Except.map (List.map (fun p : Vertex =>
            (m00 * p.1 + m01 * p.2 + n0, m10 * p.1 + m11 * p.2 + n1)))
          (leafLoop affine A00 A01 A10 A11 a0 a1 idx x0 y0) := by
  induction idx with
  | nil => intro x0 y0; rfl
  | cons i rest ih =>
    intro x0 y0
    rw [leafLoop, leafLoop]
    cases hA : affine[i]? with
    | none => rfl
    | some t =>
      have ex : (m00 * A00 + m01 * A10) * t.statx + (m00 * A01 + m01 * A11) * t.staty
            + (m00 * a0 + m01 * a1 + n0)
          = m00 * (A00 * t.statx + A01 * t.staty + a0)
            + m01 * (A10 * t.statx + A11 * t.staty + a1) + n0 := by ring
      have ey : (m10 * A00 + m11 * A10) * t.statx + (m10 * A01 + m11 * A11) * t.staty
            + (m10 * a0 + m11 * a1 + n1)
          = m10 * (A00 * t.statx + A01 * t.staty + a0)
            + m11 * (A10 * t.statx + A11 * t.staty + a1) + n1 := by ring
      simp only [ex, ey, ih]
      cases leafLoop affine A00 A01 A10 A11 a0 a1 rest
          (A00 * t.statx + A01 * t.staty + a0) (A10 * t.statx + A11 * t.staty + a1) with
      | error e => rfl
      | ok vs => rfl

/-- A run whose body emits the images of another body's vertices emits the images of
the other run's vertices. -/
theorem forEach_map (f : Vertex → Vertex) (body1 body2 : Nat → Except Fault (List Vertex))
    (l : List Nat) (h : ∀ i ∈ l, body1 i = Except.map (List.map f) (body2 i)) :
    forEach body1 l = Except.map (List.map f) (forEach body2 l) := by
  induction l with
  | nil => rfl
  | cons i rest ih =>
    have hi := h i (List.mem_cons_self i rest)
    have hr := ih (fun j hj => h j (List.mem_cons_of_mem i hj))
    rw [forEach, forEach, hi, hr]
    cases body2 i with
    | error e => rfl
    | ok vs =>
      cases forEach body2 rest with
      | error e => rfl
      | ok ws =>
        show Except.ok (List.map f vs ++ List.map f ws) = Except.ok (List.map f (vs ++ ws))
        rw [List.map_append]

/-- The function `draw_level` under a composite transform `(M*A, M*a + n)` emits the
images under `p ↦ M*p + n` of the vertices it emits under `(A, a)`, and fails as it
fails there. -/
theorem draw_level_compose (g : Globals) (m00 m01 m10 m11 n0 n1 : ℚ) (fuel : Nat) :
    ∀ (num : Int) (A00 A01 A10 A11 a0 a1 : ℚ),
      draw_level g fuel num (m00 * A00 + m01 * A10) (m00 * A01 + m01 * A11)
          (m10 * A00 + m11 * A10) (m10 * A01 + m11 * A11)
          (m00 * a0 + m01 * a1 + n0) (m10 * a0 + m11 * a1 + n1)
        = Except.map (List.map (fun p : Vertex =>
            (m00 * p.1 + m01 * p.2 + n0, m10 * p.1 + m11 * p.2 + n1)))
          (draw_level g fuel num A00 A01 A10 A11 a0 a1) := by
  induction fuel with
  | zero => intro num A00 A01 A10 A11 a0 a1; rfl
  | succ fuel ih =>
    intro num A00 A01 A10 A11 a0 a1
    by_cases hnum : num = 0
    · rw [draw_level, draw_level, if_pos hnum, if_pos hnum]
      cases hA : g.affine[0]? with
      | none => rfl
      | some t =>
        have ex : (m00 * A00 + m01 * A10) * t.statx + (m00 * A01 + m01 * A11) * t.staty
              + (m00 * a0 + m01 * a1 + n0)
            = m00 * (A00 * t.statx + A01 * t.staty + a0)
              + m01 * (A10 * t.statx + A11 * t.staty + a1) + n0 := by ring
        have ey : (m10 * A00 + m11 * A10) * t.statx + (m10 * A01 + m11 * A11) * t.staty
              + (m10 * a0 + m11 * a1 + n1)
            = m10 * (A00 * t.statx + A01 * t.staty + a0)
              + m11 * (A10 * t.statx + A11 * t.staty + a1) + n1 := by ring
        simp only [ex, ey]
        exact leafLoop_compose g.affine m00 m01 m10 m11 n0 n1 A00 A01 A10 A11 a0 a1 _ _ _
    · rw [draw_level, draw_level, if_neg hnum, if_neg hnum]
      apply forEach_map
      intro i _
      cases hA : g.affine[i]? with
      | none => rfl
      | some t =>
        have e1 : (m00 * A00 + m01 * A10) * t.a00 + (m00 * A01 + m01 * A11) * t.a10
            = m00 * (A00 * t.a00 + A01 * t.a10) + m01 * (A10 * t.a00 + A11 * t.a10) := by ring
        have e2 : (m00 * A00 + m01 * A10) * t.a01 + (m00 * A01 + m01 * A11) * t.a11
            = m00 * (A00 * t.a01 + A01 * t.a11) + m01 * (A10 * t.a01 + A11 * t.a11) := by ring
        have e3 : (m10 * A00 + m11 * A10) * t.a00 + (m10 * A01 + m11 * A11) * t.a10
            = m10 * (A00 * t.a00 + A01 * t.a10) + m11 * (A10 * t.a00 + A11 * t.a10) := by ring
        have e4 : (m10 * A00 + m11 * A10) * t.a01 + (m10 * A01 + m11 * A11) * t.a11
            = m10 * (A00 * t.a01 + A01 * t.a11) + m11 * (A10 * t.a01 + A11 * t.a11) := by ring
        have e5 : (m00 * A00 + m01 * A10) * t.b0 + (m00 * A01 + m01 * A11) * t.b1
              + (m00 * a0 + m01 * a1 + n0)
            = m00 * (A00 * t.b0 + A01 * t.b1 + a0) + m01 * (A10 * t.b0 + A11 * t.b1 + a1)
              + n0 := by ring
        have e6 : (m10 * A00 + m11 * A10) * t.b0 + (m10 * A01 + m11 * A11) * t.b1
              + (m10 * a0 + m11 * a1 + n1)
            = m10 * (A00 * t.b0 + A01 * t.b1 + a0) + m11 * (A10 * t.b0 + A11 * t.b1 + a1)
              + n1 := by ring
        simp only [e1, e2, e3, e4, e5, e6]
        exact ih _ _ _ _ _ _ _

/-- The function `draw_level` under `(M, n)` emits the images under `p ↦ M*p + n` of the
vertices it emits under the identity, and fails as it fails there. -/
theorem draw_level_identity (g : Globals) (m00 m01 m10 m11 n0 n1 : ℚ) (fuel : Nat)
    (num : Int) :
    draw_level g fuel num m00 m01 m10 m11 n0 n1
      = Except.map (List.map (fun p : Vertex =>
          (m00 * p.1 + m01 * p.2 + n0, m10 * p.1 + m11 * p.2 + n1)))
        (draw_level g fuel num 1 0 0 1 0 0) := by
  have h := draw_level_compose g m00 m01 m10 m11 n0 n1 fuel num 1 0 0 1 0 0
  simpa using h

/-! ## The claims -/

/-- C1: for a transform set of `N ≥ 2` maps (the array `affine` holding `num_trans = N`
records), every depth `d ≥ 0` and every composite transform, `draw_level` returns
(given room for `d+1` nested calls) after exactly `2 * (N^d * (N-1))` calls of
`glVertex2d`, which draw exactly `N^d * (N-1)` segments; and the definition built
when no file is found draws exactly 2 segments at depth 1. -/
theorem draw_level_segment_count (g : Globals) (hN : g.num_trans = g.affine.length)
    (h2 : 2 ≤ g.affine.length) (d fuel : Nat) (hf : d < fuel)
    (m00 m01 m10 m11 n0 n1 : ℚ) :
    (∃ vs : List Vertex, draw_level g fuel d m00 m01 m10 m11 n0 n1 = .ok vs ∧
      (glLines vs).length = g.affine.length ^ d * (g.affine.length - 1) ∧
      vs.length = 2 * (g.affine.length ^ d * (g.affine.length - 1))) ∧
    (∀ (env : Surroundings) (g0 : Globals), env.file = none →
      ∃ (g1 : Globals) (vs : List Vertex), readConfigFile env g0 = .ok g1 ∧
        draw_level g1 2 1 1 0 0 1 0 0 = .ok vs ∧ (glLines vs).length = 2) := by
  have count : ∀ (g : Globals), g.num_trans = g.affine.length → 2 ≤ g.affine.length →
      ∀ (d fuel : Nat), d < fuel → ∀ (m00 m01 m10 m11 n0 n1 : ℚ),
      ∃ vs : List Vertex, draw_level g fuel d m00 m01 m10 m11 n0 n1 = .ok vs ∧
        (glLines vs).length = g.affine.length ^ d * (g.affine.length - 1) ∧
        vs.length = 2 * (g.affine.length ^ d * (g.affine.length - 1)) := by
    intro g hN h2 d fuel hf m00 m01 m10 m11 n0 n1
    refine ⟨_, draw_level_eq_generate g hN (by omega) d fuel hf m00 m01 m10 m11 n0 n1, ?_, ?_⟩
    · rw [glLines_vertexCalls, length_generate]
    · rw [length_vertexCalls, length_generate]
  refine ⟨count g hN h2 d fuel hf m00 m01 m10 m11 n0 n1, ?_⟩
  intro env g0 hfile
  obtain ⟨vs, hvs, hlen, _⟩ := count
    { g0 with
      window_title := "Cantor Dust".toList
      num_trans := 2
      affine := [⟨0.25, 0.00, 0.00, 0.25, 0.0, 0.0, 0, 0⟩,
                 ⟨0.25, 0.00, 0.00, 0.25, 0.5, 0.0, 2 / 3, 0⟩] }
    rfl (Nat.le_refl 2) 1 2 (by omega) 1 0 0 1 0 0
  exact ⟨_, vs, readConfigFile_none env g0 hfile, hvs, hlen⟩

/-- C1, at the built-in definition and depth 3: 16 calls of `glVertex2d`, 8 segments. -/
theorem draw_level_segment_count_witness :
    ∃ vs : List Vertex, draw_level cantorDust 4 3 1 0 0 1 0 0 = .ok vs ∧
      (glLines vs).length = 2 ^ 3 * (2 - 1) ∧ vs.length = 2 * (2 ^ 3 * (2 - 1)) :=
  (draw_level_segment_count cantorDust rfl (Nat.le_refl 2) 3 4 (by omega) 1 0 0 1 0 0).1

/-- C2: for a transform set of `N ≥ 2` maps and every composite transform `(M, n)`,
`draw_level` at depth 0 returns, and the segments it draws are exactly, in order,
`(p_0, p_1), (p_1, p_2), ..., (p_{N-2}, p_{N-1})`, where `p_i = M * (statx_i, staty_i) + n`
is computed from the stationary point stored in `affine[i]`: `N - 1` segments, the
last one ending at `p_{N-1}`, none leading back to `p_0`. -/
theorem draw_level_zero_segments (g : Globals) (hN : g.num_trans = g.affine.length)
    (h2 : 2 ≤ g.affine.length) (fuel : Nat) (hf : 0 < fuel)
    (m00 m01 m10 m11 n0 n1 : ℚ) :
    ∃ vs : List Vertex, draw_level g fuel 0 m00 m01 m10 m11 n0 n1 = .ok vs ∧
      glLines vs = List.zip
        (g.affine.map (fun t =>
          (m00 * t.statx + m01 * t.staty + n0, m10 * t.statx + m11 * t.staty + n1)))
        (g.affine.map (fun t =>
          (m00 * t.statx + m01 * t.staty + n0, m10 * t.statx + m11 * t.staty + n1))).tail ∧
      (glLines vs).length = g.affine.length - 1 ∧
      vs.length = 2 * (g.affine.length - 1) ∧
      (∀ (i : Nat) (h : i + 1 < g.affine.length),
        (glLines vs)[i]? = some
          ((m00 * g.affine[i].statx + m01 * g.affine[i].staty + n0,
            m10 * g.affine[i].statx + m11 * g.affine[i].staty + n1),
           (m00 * g.affine[i + 1].statx + m01 * g.affine[i + 1].staty + n0,
            m10 * g.affine[i + 1].statx + m11 * g.affine[i + 1].staty + n1))) := by
  have h := draw_level_eq_generate g hN (by omega) 0 fuel hf m00 m01 m10 m11 n0 n1
  have hg : generate g.affine 0 m00 m01 m10 m11 n0 n1 = List.zip
        (g.affine.map (fun t =>
          (m00 * t.statx + m01 * t.staty + n0, m10 * t.statx + m11 * t.staty + n1)))
        (g.affine.map (fun t =>
          (m00 * t.statx + m01 * t.staty + n0, m10 * t.statx + m11 * t.staty + n1))).tail :=
    rfl
  have hl := length_generate g.affine 0 m00 m01 m10 m11 n0 n1
  rw [pow_zero, one_mul] at hl
  refine ⟨_, h, ?_, ?_, ?_, ?_⟩
  · rw [glLines_vertexCalls, hg]
  · rw [glLines_vertexCalls, hl]
  · rw [length_vertexCalls, hl]
  · intro i hi
    rw [glLines_vertexCalls, hg]
    exact getElem?_zip_map_tail g.affine _ i hi

/-- C2, at the built-in definition: one segment, from `p_0` to `p_1`. -/
theorem draw_level_zero_segments_witness :
    ∃ vs : List Vertex, draw_level cantorDust 1 0 1 0 0 1 0 0 = .ok vs ∧
      (glLines vs).length = 2 - 1 :=
  match draw_level_zero_segments cantorDust rfl (Nat.le_refl 2) 1 Nat.one_pos 1 0 0 1 0 0 with
  | ⟨vs, h, _, hl, _⟩ => ⟨vs, h, hl⟩

/-- C3: for a transform set (the array `affine` holding `num_trans` records), a
depth `d ≥ 0` and a composite transform `(M, n)`, the call of depth `d+1` returns, and
the vertices it emits are those of the calls of depth `d` with transform
`(M*a_i, M*b_i + n)`, each of which returns, one map after the other in array
order; the same holds for the segments these vertices draw.  From the identity
transform the calls of depth `d` are those with transform `(a_i, b_i)`. -/
theorem draw_level_succ_concat (g : Globals) (hN : g.num_trans = g.affine.length)
    (d fuel : Nat) (hf : d < fuel) (m00 m01 m10 m11 n0 n1 : ℚ) :
    (∃ parts : List (List Vertex),
      List.Forall₂ (fun t vs => draw_level g fuel d
          (m00 * t.a00 + m01 * t.a10) (m00 * t.a01 + m01 * t.a11)
          (m10 * t.a00 + m11 * t.a10) (m10 * t.a01 + m11 * t.a11)
          (m00 * t.b0 + m01 * t.b1 + n0) (m10 * t.b0 + m11 * t.b1 + n1) = .ok vs)
        g.affine parts ∧
      draw_level g (fuel + 1) ((d : Int) + 1) m00 m01 m10 m11 n0 n1 = .ok parts.flatten ∧
      glLines parts.flatten = (parts.map glLines).flatten) ∧
    (∃ parts : List (List Vertex),
      List.Forall₂ (fun t vs =>
          draw_level g fuel d t.a00 t.a01 t.a10 t.a11 t.b0 t.b1 = .ok vs)
        g.affine parts ∧
      draw_level g (fuel + 1) ((d : Int) + 1) 1 0 0 1 0 0 = .ok parts.flatten ∧
      glLines parts.flatten = (parts.map glLines).flatten) := by
  have key : ∀ (m00 m01 m10 m11 n0 n1 : ℚ), ∃ parts : List (List Vertex),
      List.Forall₂ (fun t vs => draw_level g fuel d
          (m00 * t.a00 + m01 * t.a10) (m00 * t.a01 + m01 * t.a11)
          (m10 * t.a00 + m11 * t.a10) (m10 * t.a01 + m11 * t.a11)
          (m00 * t.b0 + m01 * t.b1 + n0) (m10 * t.b0 + m11 * t.b1 + n1) = .ok vs)
        g.affine parts ∧
      draw_level g (fuel + 1) ((d : Int) + 1) m00 m01 m10 m11 n0 n1 = .ok parts.flatten ∧
      glLines parts.flatten = (parts.map glLines).flatten := by
    intro m00 m01 m10 m11 n0 n1
    refine ⟨(g.affine.map (fun t => generate g.affine d
          (m00 * t.a00 + m01 * t.a10) (m00 * t.a01 + m01 * t.a11)
          (m10 * t.a00 + m11 * t.a10) (m10 * t.a01 + m11 * t.a11)
          (m00 * t.b0 + m01 * t.b1 + n0) (m10 * t.b0 + m11 * t.b1 + n1))).map vertexCalls,
      ?_, ?_, glLines_flatten_vertexCalls _⟩
    · rw [List.map_map, List.forall₂_map_right_iff, List.forall₂_same]
      intro t ht
      have hpos : 1 ≤ g.affine.length := List.length_pos_of_mem ht
      exact draw_level_eq_generate g hN hpos d fuel hf _ _ _ _ _ _
    · rw [draw_level_succ_eq g hN d fuel hf, List.map_map]
      rfl
  refine ⟨key m00 m01 m10 m11 n0 n1, ?_⟩
  have h := key 1 0 0 1 0 0
  simpa using h

/-- C3, at the built-in definition: depth 1 from the identity is the two calls of
depth 0 with the transforms `(a_0, b_0)` and `(a_1, b_1)`. -/
theorem draw_level_succ_concat_witness :
    ∃ parts : List (List Vertex),
      List.Forall₂ (fun t vs =>
          draw_level cantorDust 1 (0 : Nat) t.a00 t.a01 t.a10 t.a11 t.b0 t.b1 = .ok vs)
        cantorDust.affine parts ∧
      draw_level cantorDust (1 + 1) (((0 : Nat) : Int) + 1) 1 0 0 1 0 0 = .ok parts.flatten ∧
      glLines parts.flatten = (parts.map glLines).flatten :=
  (draw_level_succ_concat cantorDust rfl 0 1 Nat.one_pos 1 0 0 1 0 0).2

/-- C4: for an affine map `(a, b)` with `|det(I - a)| > 1e-6` the body of the solver
loop returns, leaves the coefficients as they were, and stores a point
`(statx, staty)` with `a * (statx, staty) + b = (statx, staty)`; every point with that
property is this one. -/
theorem stationaryPoint_fixed (t : AffineTrans)
    (h : |(1 - t.a00) * (1 - t.a11) - t.a01 * t.a10| > 1 / 1000000) :
    ∃ s : AffineTrans, stationaryPoint t = .ok s ∧
      (s.a00 = t.a00 ∧ s.a01 = t.a01 ∧ s.a10 = t.a10 ∧ s.a11 = t.a11 ∧
        s.b0 = t.b0 ∧ s.b1 = t.b1) ∧
      (t.a00 * s.statx + t.a01 * s.staty + t.b0 = s.statx ∧
        t.a10 * s.statx + t.a11 * s.staty + t.b1 = s.staty) ∧
      (∀ x y : ℚ, t.a00 * x + t.a01 * y + t.b0 = x → t.a10 * x + t.a11 * y + t.b1 = y →
        x = s.statx ∧ y = s.staty) := by
  have hne : (1 - t.a00) * (1 - t.a11) - t.a01 * t.a10 ≠ 0 := by
    intro h0
    rw [h0] at h
    norm_num at h
  refine ⟨_, stationaryPoint_solve t h, ⟨rfl, rfl, rfl, rfl, rfl, rfl⟩, ⟨?_, ?_⟩, ?_⟩
  · show t.a00 * (_ / _) + t.a01 * (_ / _) + t.b0 = _ / _
    field_simp
    ring
  · show t.a10 * (_ / _) + t.a11 * (_ / _) + t.b1 = _ / _
    field_simp
    ring
  · intro x y hx hy
    constructor
    · show x = _ / _
      rw [eq_div_iff hne]
      linear_combination (-(1 - t.a11)) * hx - t.a01 * hy
    · show y = _ / _
      rw [eq_div_iff hne]
      linear_combination (-t.a10) * hx - (1 - t.a00) * hy

/-- C4, at the second map of the built-in definition, `a = 0.25 * I`, `b = (0.5, 0)`. -/
theorem stationaryPoint_fixed_witness :
    ∃ s : AffineTrans, stationaryPoint ⟨1 / 4, 0, 0, 1 / 4, 1 / 2, 0, 0, 0⟩ = .ok s ∧
      1 / 4 * s.statx + 0 * s.staty + 1 / 2 = s.statx ∧
      0 * s.statx + 1 / 4 * s.staty + 0 = s.staty :=
  match stationaryPoint_fixed ⟨1 / 4, 0, 0, 1 / 4, 1 / 2, 0, 0, 0⟩
    (by norm_num [abs_of_pos]) with
  | ⟨s, h, _, hfix, _⟩ => ⟨s, h, hfix⟩

/-- C5: for an affine map `(a, b)` with `|det(I - a)| ≤ 1e-6` the body of the solver
loop stores exactly `(0, 0)` and leaves the coefficients as they were; it does so
whatever the quotient operation is, also one that always fails, so no quotient is
taken and no fault is raised.  In particular this is so for `a = I` and any `b`. -/
theorem stationaryPoint_degenerate (t : AffineTrans)
    (h : |(1 - t.a00) * (1 - t.a11) - t.a01 * t.a10| ≤ 1 / 1000000) :
    (∀ quot : ℚ → ℚ → Except Fault ℚ,
      stationaryPointWith quot t = .ok { t with statx := 0, staty := 0 }) ∧
    stationaryPoint t = .ok { t with statx := 0, staty := 0 } ∧
    (∀ (quot : ℚ → ℚ → Except Fault ℚ) (b0 b1 sx sy : ℚ),
      stationaryPointWith quot ⟨1, 0, 0, 1, b0, b1, sx, sy⟩ = .ok ⟨1, 0, 0, 1, b0, b1, 0, 0⟩) := by
  refine ⟨stationaryPointWith_of_le t h, stationaryPointWith_of_le t h divide, ?_⟩
  intro quot b0 b1 sx sy
  exact stationaryPointWith_of_le ⟨1, 0, 0, 1, b0, b1, sx, sy⟩ (by norm_num) quot

/-- C5, at `a = I`, `b = (3, 4)`, with a quotient operation that always fails. -/
theorem stationaryPoint_degenerate_witness :
    stationaryPointWith (fun _ _ => .error .divideByZero) ⟨1, 0, 0, 1, 3, 4, 7, 7⟩
      = .ok ⟨1, 0, 0, 1, 3, 4, 0, 0⟩ :=
  (stationaryPoint_degenerate ⟨1, 0, 0, 1, 3, 4, 7, 7⟩ (by norm_num)).1 _

/-- C6: whatever the record held as stationary point before, the body of the solver
loop stores `(0, 0)` for `a = 0.25 * I`, `b = (0, 0)` and `(2/3, 0)` for
`a = 0.25 * I`, `b = (0.5, 0)`. -/
theorem stationaryPoint_examples (sx sy : ℚ) :
    stationaryPoint ⟨0.25, 0, 0, 0.25, 0, 0, sx, sy⟩ = .ok ⟨0.25, 0, 0, 0.25, 0, 0, 0, 0⟩ ∧
    stationaryPoint ⟨0.25, 0, 0, 0.25, 0.5, 0, sx, sy⟩
      = .ok ⟨0.25, 0, 0, 0.25, 0.5, 0, 2 / 3, 0⟩ := by
  constructor
  · rw [stationaryPoint_quarter _ rfl rfl rfl rfl rfl]
    norm_num
  · rw [stationaryPoint_quarter _ rfl rfl rfl rfl rfl]
    norm_num

/-- C7: when the file cannot be opened `readConfigFile` returns, and leaves the title
`Cantor Dust`, `num_trans = 2` and an array of two records, both with matrix
`0.25 * I`, the first with constant vector `(0, 0)`, the second with `(0.5, 0)`; the
other globals are as before. -/
theorem readConfigFile_missing_file (env : Surroundings) (g : Globals)
    (h : env.file = none) :
    ∃ g1 : Globals, readConfigFile env g = .ok g1 ∧
      String.mk g1.window_title = "Cantor Dust" ∧
      g1.num_trans = 2 ∧
      g1.affine.map (fun t => (t.a00, t.a01, t.a10, t.a11, t.b0, t.b1))
        = [(0.25, 0, 0, 0.25, 0, 0), (0.25, 0, 0, 0.25, 0.5, 0)] ∧
      g1.affine.map (fun t => (t.statx, t.staty)) = [(0, 0), (2 / 3, 0)] ∧
      g1 = { g with window_title := g1.window_title, num_trans := g1.num_trans,
                    affine := g1.affine } := by
  refine ⟨_, readConfigFile_none env g h, rfl, rfl, ?_, rfl, rfl⟩
  norm_num

/-- C7, at startup with no file. -/
theorem readConfigFile_missing_file_witness :
    ∃ g1 : Globals,
      readConfigFile ⟨none, [], fun _ => ⟨0, 0, 0, 0, 0, 0, 0, 0⟩⟩ initialGlobals = .ok g1 ∧
      String.mk g1.window_title = "Cantor Dust" ∧ g1.num_trans = 2 :=
  match readConfigFile_missing_file ⟨none, [], fun _ => ⟨0, 0, 0, 0, 0, 0, 0, 0⟩⟩
    initialGlobals rfl with
  | ⟨g1, h, ht, hn, _⟩ => ⟨g1, h, ht, hn⟩

/-- C8 as stated fails: a file that opens is never replaced by the built-in
definition.  With `abc` on the map-count line `num_trans` keeps its startup value 0
and the array is empty; with two maps declared and the single map line `1 2`, both
records get `a00 = 1`, `a01 = 2` from that line and keep the block's contents (here
9) in the other four coefficients.  Neither result is the one for a missing file. -/
theorem readConfigFile_malformed_counterexample :
    (scanInt (readerAfter 5 ⟨[], badCountFile⟩).inputline = .noMatch ∧
      readConfigFile badCountEnv initialGlobals
        = .ok { initialGlobals with window_title := "Koch Curve".toList } ∧
      readConfigFile badCountEnv initialGlobals
        ≠ readConfigFile { badCountEnv with file := none } initialGlobals) ∧
    (scanDoubles 6 (readerAfter 7 ⟨[], shortLineFile⟩).inputline = .ok [1, 2] ∧
      readConfigFile shortLineEnv initialGlobals = .ok { initialGlobals with
        window_title := "Koch Curve".toList
        num_trans := 2
        affine := [⟨1, 2, 9, 9, 9, 9, 3, -9 / 2⟩, ⟨1, 2, 9, 9, 9, 9, 3, -9 / 2⟩] } ∧
      readConfigFile shortLineEnv initialGlobals
        ≠ readConfigFile { shortLineEnv with file := none } initialGlobals) := by
  have hbad : readConfigFile badCountEnv initialGlobals
      = .ok { initialGlobals with window_title := "Koch Curve".toList } := rfl
  refine ⟨⟨rfl, hbad, ?_⟩, ⟨scanDoubles_one_two, readConfigFile_shortLine, ?_⟩⟩
  · rw [hbad, readConfigFile_none _ _ rfl]
    intro h
    have h2 := congrArg Globals.num_trans (Except.ok.inj h)
    exact absurd h2 (by decide)
  · rw [readConfigFile_shortLine, readConfigFile_none _ _ rfl]
    intro h
    have h2 := congrArg (fun g => g.affine.map (fun t => t.a01)) (Except.ok.inj h)
    simp only [List.map_cons, List.map_nil] at h2
    norm_num at h2

/-- C8 as amended: for a file that opens, whose title has room in `window_title` and
whose numbers are of the forms the model describes, `readConfigFile` returns without
falling back to the built-in definition.  The title is the one converted from the
title line, or the one before the call when none is; `num_trans` is `N`, the integer
converted from the map-count line, or its value before the call when that line does
not match; the array has `N` records (none if `N` is not positive); and record `i` is
the freshly allocated record `i` with the values `vals i` converted from the line
buffer after its `fgets` call stored in order, the coefficients not reached left as
allocated, and with the stationary point computed from those coefficients. -/
theorem readConfigFile_opened_file (env : Surroundings) (g : Globals) (contents : List Char)
    (N : Int) (vals : Nat → List ℚ)
    (h : env.file = some contents)
    (htitle : ∀ t : List Char,
      scanTitle (readerAfter 3 ⟨env.inputline, contents⟩).inputline = some t →
        t.length ≤ WIN_TITLE_LENGTH)
    (hcount : (scanInt (readerAfter 5 ⟨env.inputline, contents⟩).inputline = .noMatch ∧
        N = g.num_trans) ∨
      ∃ rest : List Char,
        scanInt (readerAfter 5 ⟨env.inputline, contents⟩).inputline = .converted N rest)
    (hvals : ∀ i : Nat, i < N.toNat →
      scanDoubles 6 (readerAfter (7 + i) ⟨env.inputline, contents⟩).inputline
        = .ok (vals i)) :
    ∃ g1 : Globals, readConfigFile env g = .ok g1 ∧
      g1.window_title =
        (match scanTitle (readerAfter 3 ⟨env.inputline, contents⟩).inputline with
          | none => g.window_title
          | some t => t) ∧
      g1.num_trans = N ∧
      g1.affine.length = N.toNat ∧
      (∀ i : Nat, i < N.toNat → ∃ t : AffineTrans, g1.affine[i]? = some t ∧
        stationaryPoint (storeCoefficients (env.heap i) (vals i)) = .ok t) := by
  refine ⟨_, readConfigFile_opened env g contents N vals h htitle hcount hvals, rfl, rfl,
    ?_, ?_⟩
  · simp
  · intro i hi
    refine ⟨_, ?_, stationaryPoint_eq_solve _⟩
    simp only [List.getElem?_map, List.getElem?_range hi]
    rfl

/-- C8 as amended, at a file that declares two maps and has the one map line `1 2`,
read at startup with 9 in every field of the block allocated: two records, each with
`a00 = 1`, `a01 = 2` from the line and 9 left in the other four coefficients. -/
theorem readConfigFile_opened_file_witness :
    ∃ g1 : Globals, readConfigFile shortLineEnv initialGlobals = .ok g1 ∧
      g1.num_trans = 2 ∧ g1.affine.length = 2 ∧
      (∀ i : Nat, i < 2 → ∃ t : AffineTrans, g1.affine[i]? = some t ∧
        stationaryPoint ⟨1, 2, 9, 9, 9, 9, 9, 9⟩ = .ok t) :=
  match readConfigFile_opened_file shortLineEnv initialGlobals shortLineFile 2
    (fun _ => [1, 2]) rfl title_shortLine (Or.inr ⟨[Char.ofNat 10], rfl⟩)
    scanDoubles_shortLine with
  | ⟨g1, h, _, hn, hl, hrec⟩ => ⟨g1, h, hn, hl, hrec⟩

/-- C9 fails on the code: `Key` with `r` or `R` puts the pan offset back to `(-1, 0)`
and the model-view matrix back to what `Reshape` makes it, but leaves `scale_factor`
as it is.  After startup (`Reshape`), Page Up and `r`, the pan offset and the matrix
are those of startup while `scale_factor` is 0.8, not the startup value 1.  The
relation between the matrix and the three variables that holds at startup and that
every pan and zoom key keeps, `viewTracked`, is then broken. -/
theorem Key_r_keeps_scale_factor :
    (∀ g : Globals,
      (Key 'r' g).scale_factor = g.scale_factor ∧ (Key 'R' g).scale_factor = g.scale_factor ∧
      (Key 'r' g).xwin = -1 ∧ (Key 'r' g).ywin = 0 ∧
      (Key 'r' g).modelview = (Reshape g).modelview ∧ Key 'R' g = Key 'r' g) ∧
    ((Reshape cantorDust).scale_factor = 1 ∧
      (run [.special GLUT_KEY_PAGE_UP, .key 'r'] (Reshape cantorDust)).scale_factor = 4 / 5 ∧
      (run [.special GLUT_KEY_PAGE_UP, .key 'r'] (Reshape cantorDust)).xwin
        = (Reshape cantorDust).xwin ∧
      (run [.special GLUT_KEY_PAGE_UP, .key 'r'] (Reshape cantorDust)).ywin
        = (Reshape cantorDust).ywin ∧
      (run [.special GLUT_KEY_PAGE_UP, .key 'r'] (Reshape cantorDust)).modelview
        = (Reshape cantorDust).modelview) ∧
    (viewTracked (Reshape cantorDust) ∧
      (∀ (k : Int) (g : Globals), viewTracked g → viewTracked (Special k g)) ∧
      ¬ viewTracked (run [.special GLUT_KEY_PAGE_UP, .key 'r'] (Reshape cantorDust))) := by
  have hR : ∀ g : Globals, Key 'R' g = Key 'r' g := fun _ => rfl
  have hgen : ∀ g : Globals,
      (Key 'r' g).scale_factor = g.scale_factor ∧ (Key 'R' g).scale_factor = g.scale_factor ∧
      (Key 'r' g).xwin = -1 ∧ (Key 'r' g).ywin = 0 ∧
      (Key 'r' g).modelview = (Reshape g).modelview ∧ Key 'R' g = Key 'r' g := by
    intro g
    refine ⟨rfl, rfl, ?_, ?_, rfl, hR g⟩
    · show (-1.0 : ℚ) = -1
      norm_num
    · show (0.0 : ℚ) = 0
      norm_num
  have h1 : (Reshape cantorDust).scale_factor = 1 := by
    show (1.0 : ℚ) = 1
    norm_num
  refine ⟨hgen, ⟨h1, ?_, rfl, rfl, rfl⟩, ⟨viewTracked_Reshape cantorDust h1,
    viewTracked_Special, ?_⟩⟩
  · show (1.0 : ℚ) * 0.8 = 4 / 5
    norm_num
  · intro h
    have h2 : (1 : ℚ) * (1.0 * 0.8) = 1 := h.1
    norm_num at h2

/-- C10: Page Up multiplies `scale_factor` by 0.8 and Page Down by 1.25; one after
the other, in either order, they leave `scale_factor` exactly as it was. -/
theorem zoom_round_trip (g : Globals) :
    (Special GLUT_KEY_PAGE_UP g).scale_factor = g.scale_factor * 0.8 ∧
    (Special GLUT_KEY_PAGE_DOWN g).scale_factor = g.scale_factor * 1.25 ∧
    (Special GLUT_KEY_PAGE_DOWN (Special GLUT_KEY_PAGE_UP g)).scale_factor = g.scale_factor ∧
    (Special GLUT_KEY_PAGE_UP (Special GLUT_KEY_PAGE_DOWN g)).scale_factor = g.scale_factor := by
  have hup : ∀ g : Globals, (Special GLUT_KEY_PAGE_UP g).scale_factor = g.scale_factor * 0.8 :=
    fun _ => rfl
  have hdown : ∀ g : Globals,
      (Special GLUT_KEY_PAGE_DOWN g).scale_factor = g.scale_factor * 1.25 := fun _ => rfl
  refine ⟨hup g, hdown g, ?_, ?_⟩
  · rw [hdown, hup]
    norm_num
    ring
  · rw [hup, hdown]
    norm_num
    ring

/-- C11: for a depth `d ≥ 0` the `-` key leaves the depth `max(0, d - 1)`; at depth 0 it
leaves it 0. -/
theorem Key_minus_num_levels (g : Globals) (h : 0 ≤ g.num_levels) :
    (Key '-' g).num_levels = max 0 (g.num_levels - 1) ∧
    (g.num_levels = 0 → (Key '-' g).num_levels = 0) := by
  have e : Key '-' g = postRedisplay true
      (if g.num_levels > 0 then { g with num_levels := g.num_levels - 1 } else g) := rfl
  rw [e]
  by_cases hp : g.num_levels > 0
  · rw [if_pos hp]
    refine ⟨?_, fun h0 => absurd h0 (by omega)⟩
    show g.num_levels - 1 = max 0 (g.num_levels - 1)
    rw [max_eq_right (by omega)]
  · rw [if_neg hp]
    have h0 : g.num_levels = 0 := by omega
    refine ⟨?_, fun _ => h0⟩
    show g.num_levels = max 0 (g.num_levels - 1)
    rw [h0]
    rfl

/-- C11, at depth 3 and at depth 0. -/
theorem Key_minus_num_levels_witness :
    (Key '-' { cantorDust with num_levels := 3 }).num_levels = max 0 (3 - 1) ∧
    (Key '-' cantorDust).num_levels = 0 :=
  ⟨(Key_minus_num_levels { cantorDust with num_levels := 3 } (by decide)).1,
   (Key_minus_num_levels cantorDust (by decide)).2 rfl⟩

/-- C12: from a state with `num_levels = 0`, after any finite sequence of events
(`Key`, `Special`, also `Reshape`) `num_levels` is non-negative, and at most the number
of events, so that no `int` overflows before 2^31 events.  `Display` passes
`num_levels` to `draw_level`: with a transform set of at least one record that call
returns, given room for `num_levels + 1` nested calls, while a call with a negative
depth would use up every bound on the nesting of calls. -/
theorem num_levels_never_negative (g : Globals) (h0 : g.num_levels = 0) (es : List Event) :
    0 ≤ (run es g).num_levels ∧
    (run es g).num_levels ≤ es.length ∧
    (g.num_trans = g.affine.length → 1 ≤ g.affine.length →
      (∀ fuel : Nat, (run es g).num_levels.toNat < fuel →
        ∃ segs : List Segment, Display (run es g) fuel = .ok segs) ∧
      (∀ (fuel : Nat) (num : Int) (m00 m01 m10 m11 n0 n1 : ℚ), num < 0 →
        draw_level (run es g) fuel num m00 m01 m10 m11 n0 n1 = .error .outOfFuel)) := by
  obtain ⟨r1, r2, r3⟩ := run_invariant es g
  obtain ⟨p1, p2⟩ := r3 (by omega)
  refine ⟨p1, by omega, ?_⟩
  intro hN h1
  have hN2 : (run es g).num_trans = (run es g).affine.length := by rw [r1, r2]; exact hN
  have h12 : 1 ≤ (run es g).affine.length := by rw [r2]; exact h1
  constructor
  · intro fuel hf
    have hd : (((run es g).num_levels.toNat : Nat) : Int) = (run es g).num_levels :=
      Int.toNat_of_nonneg p1
    have h := draw_level_eq_generate (run es g) hN2 h12 (run es g).num_levels.toNat fuel hf
      1 0 0 1 0 0
    rw [hd] at h
    rw [Display, h]
    exact ⟨_, rfl⟩
  · intro fuel num m00 m01 m10 m11 n0 n1 hneg
    exact draw_level_negative (run es g) (by rw [hN2]; omega) h12 fuel num hneg _ _ _ _ _ _

/-- C12, at the built-in definition after `+`, `+`, `-`, Page Up, `-`, `-`, `-`. -/
theorem num_levels_never_negative_witness :
    0 ≤ (run [.key '+', .key '+', .key '-', .special GLUT_KEY_PAGE_UP, .key '-', .key '-',
      .key '-'] cantorDust).num_levels ∧
    ∃ segs : List Segment,
      Display (run [.key '+', .key '+', .key '-', .special GLUT_KEY_PAGE_UP, .key '-',
        .key '-', .key '-'] cantorDust) 1 = .ok segs :=
  match num_levels_never_negative cantorDust rfl
    [.key '+', .key '+', .key '-', .special GLUT_KEY_PAGE_UP, .key '-', .key '-', .key '-'] with
  | ⟨h, _, hd⟩ => ⟨h, (hd rfl (Nat.le_succ 1)).1 1 (by decide)⟩

/-- C13: each arrow key moves the pan offset by exactly `0.1 * scale_factor`, with the
`scale_factor` at the time of the key, along its own axis (Up: `ywin` up, Down: `ywin`
down, Left: `xwin` down, Right: `xwin` up) and leaves the other coordinate and
`scale_factor` as they were. -/
theorem arrow_keys_pan (g : Globals) :
    ((Special GLUT_KEY_UP g).ywin = g.ywin + 0.1 * g.scale_factor ∧
      (Special GLUT_KEY_UP g).xwin = g.xwin ∧
      (Special GLUT_KEY_UP g).scale_factor = g.scale_factor) ∧
    ((Special GLUT_KEY_DOWN g).ywin = g.ywin - 0.1 * g.scale_factor ∧
      (Special GLUT_KEY_DOWN g).xwin = g.xwin ∧
      (Special GLUT_KEY_DOWN g).scale_factor = g.scale_factor) ∧
    ((Special GLUT_KEY_LEFT g).xwin = g.xwin - 0.1 * g.scale_factor ∧
      (Special GLUT_KEY_LEFT g).ywin = g.ywin ∧
      (Special GLUT_KEY_LEFT g).scale_factor = g.scale_factor) ∧
    ((Special GLUT_KEY_RIGHT g).xwin = g.xwin + 0.1 * g.scale_factor ∧
      (Special GLUT_KEY_RIGHT g).ywin = g.ywin ∧
      (Special GLUT_KEY_RIGHT g).scale_factor = g.scale_factor) :=
  ⟨⟨rfl, rfl, rfl⟩, ⟨rfl, rfl, rfl⟩, ⟨rfl, rfl, rfl⟩, ⟨rfl, rfl, rfl⟩⟩

/-- C14: with a transform set of `N ≥ 1` records (`num_trans = N`), no call of
`draw_level` reads `affine[i]` outside `0 ≤ i < N`, whatever the depth and however far
the nested calls get, and for a depth `d ≥ 0` the call returns.  With an empty array
the call at depth 0 reads `affine[0]` outside it. -/
theorem draw_level_reads_in_range (g : Globals) (hN : g.num_trans = g.affine.length)
    (h1 : 1 ≤ g.affine.length) :
    (∀ (fuel : Nat) (num : Int) (m00 m01 m10 m11 n0 n1 : ℚ),
      draw_level g fuel num m00 m01 m10 m11 n0 n1 ≠ .error .outOfRange) ∧
    (∀ (d fuel : Nat), d < fuel → ∀ (m00 m01 m10 m11 n0 n1 : ℚ),
      ∃ vs : List Vertex, draw_level g fuel d m00 m01 m10 m11 n0 n1 = .ok vs) ∧
    (∀ (g0 : Globals), g0.affine = [] → ∀ (fuel : Nat) (m00 m01 m10 m11 n0 n1 : ℚ),
      draw_level g0 (fuel + 1) 0 m00 m01 m10 m11 n0 n1 = .error .outOfRange) := by
  refine ⟨fun fuel => draw_level_ne_outOfRange g hN h1 fuel, ?_, ?_⟩
  · intro d fuel hf m00 m01 m10 m11 n0 n1
    exact ⟨_, draw_level_eq_generate g hN h1 d fuel hf m00 m01 m10 m11 n0 n1⟩
  · intro g0 h0 fuel m00 m01 m10 m11 n0 n1
    rw [draw_level, if_pos rfl, h0]
    rfl

/-- C14, at the built-in definition and depth 2. -/
theorem draw_level_reads_in_range_witness :
    draw_level cantorDust 3 2 1 0 0 1 0 0 ≠ .error .outOfRange ∧
    ∃ vs : List Vertex, draw_level cantorDust 3 (2 : Nat) 1 0 0 1 0 0 = .ok vs :=
  match draw_level_reads_in_range cantorDust rfl (Nat.le_succ 1) with
  | ⟨h, hr, _⟩ => ⟨h 3 2 1 0 0 1 0 0, hr 2 3 (by decide) 1 0 0 1 0 0⟩

/-- C15: for every transform set, depth and composite transform `(M, n)`, when
`draw_level` returns from the identity transform it returns from `(M, n)` with the
images under `p ↦ M*p + n` of the same vertices in the same order, so that the segments
are the same segments with both ends mapped; when it fails from the identity it fails
the same way from `(M, n)`; and from the identity it returns, for a depth `d ≥ 0`, a
transform set of at least one record and room for `d + 1` nested calls. -/
theorem draw_level_equivariant (g : Globals) (fuel : Nat) (num : Int)
    (m00 m01 m10 m11 n0 n1 : ℚ) :
    (∀ ws : List Vertex, draw_level g fuel num 1 0 0 1 0 0 = .ok ws →
      draw_level g fuel num m00 m01 m10 m11 n0 n1
        = .ok (ws.map (fun p => (m00 * p.1 + m01 * p.2 + n0, m10 * p.1 + m11 * p.2 + n1))) ∧
      glLines (ws.map (fun p => (m00 * p.1 + m01 * p.2 + n0, m10 * p.1 + m11 * p.2 + n1)))
        = (glLines ws).map (fun s =>
            ((m00 * s.1.1 + m01 * s.1.2 + n0, m10 * s.1.1 + m11 * s.1.2 + n1),
             (m00 * s.2.1 + m01 * s.2.2 + n0, m10 * s.2.1 + m11 * s.2.2 + n1)))) ∧
    (∀ e : Fault, draw_level g fuel num 1 0 0 1 0 0 = .error e →
      draw_level g fuel num m00 m01 m10 m11 n0 n1 = .error e) ∧
    (g.num_trans = g.affine.length → 1 ≤ g.affine.length → 0 ≤ num → num.toNat < fuel →
      ∃ ws : List Vertex, draw_level g fuel num 1 0 0 1 0 0 = .ok ws) := by
  have h := draw_level_identity g m00 m01 m10 m11 n0 n1 fuel num
  refine ⟨?_, ?_, ?_⟩
  · intro ws hws
    rw [hws] at h
    exact ⟨h, glLines_map _ ws⟩
  · intro e he
    rw [he] at h
    exact h
  · intro hN h1 hnum hf
    have hd : ((num.toNat : Nat) : Int) = num := Int.toNat_of_nonneg hnum
    have hg := draw_level_eq_generate g hN h1 num.toNat fuel hf 1 0 0 1 0 0
    rw [hd] at hg
    exact ⟨_, hg⟩

/-- C15, at the built-in definition, depth 2 and the transform `p ↦ 2*p + (3, 5)`. -/
theorem draw_level_equivariant_witness :
    ∃ ws : List Vertex, draw_level cantorDust 3 2 1 0 0 1 0 0 = .ok ws ∧
      draw_level cantorDust 3 2 2 0 0 2 3 5
        = .ok (ws.map (fun p => (2 * p.1 + 0 * p.2 + 3, 0 * p.1 + 2 * p.2 + 5))) :=
  match draw_level_equivariant cantorDust 3 2 2 0 0 2 3 5 with
  | ⟨h, _, hr⟩ =>
    match hr rfl (Nat.le_succ 1) (by decide) (by decide) with
    | ⟨ws, hws⟩ => ⟨ws, hws, (h ws hws).1⟩

/-- C16: the `+` and `-` keys leave `xwin`, `ywin` and `scale_factor` as they were;
every key passed to `Special` leaves `num_levels` as it was; Page Up and Page Down
leave `xwin` and `ywin` as they were; and no key, passed to `Key` or to `Special`,
changes `num_trans` or the array `affine`, stationary points included. -/
theorem key_events_frame (g : Globals) :
    ((Key '+' g).xwin = g.xwin ∧ (Key '+' g).ywin = g.ywin ∧
      (Key '+' g).scale_factor = g.scale_factor) ∧
    ((Key '-' g).xwin = g.xwin ∧ (Key '-' g).ywin = g.ywin ∧
      (Key '-' g).scale_factor = g.scale_factor) ∧
    (∀ k : Int, (Special k g).num_levels = g.num_levels) ∧
    ((Special GLUT_KEY_PAGE_UP g).xwin = g.xwin ∧ (Special GLUT_KEY_PAGE_UP g).ywin = g.ywin) ∧
    ((Special GLUT_KEY_PAGE_DOWN g).xwin = g.xwin ∧
      (Special GLUT_KEY_PAGE_DOWN g).ywin = g.ywin) ∧
    (∀ c : Char, (Key c g).num_trans = g.num_trans ∧ (Key c g).affine = g.affine) ∧
    (∀ k : Int, (Special k g).num_trans = g.num_trans ∧ (Special k g).affine = g.affine) := by
  have e : Key '-' g = postRedisplay true
      (if g.num_levels > 0 then { g with num_levels := g.num_levels - 1 } else g) := rfl
  refine ⟨⟨rfl, rfl, rfl⟩, ?_, fun k => (Special_frame k g).1, ⟨rfl, rfl⟩, ⟨rfl, rfl⟩,
    fun c => ⟨(Key_frame c g).1, (Key_frame c g).2.1⟩,
    fun k => ⟨(Special_frame k g).2.1, (Special_frame k g).2.2.1⟩⟩
  rw [e]
  split_ifs <;> exact ⟨rfl, rfl, rfl⟩

end Fractals
